import Mathlib

/-!
Verification of the scheduling/reconciliation core of the `microscaling`
container autoscaler (`src/scheduler/docker/docker.go`).

The Go code is shallowly embedded: Go maps become association lists
(`List (String × _)`), Go `int` becomes `Int`, runtime calls become
explicit parameters (`Except`/`Option` results), and the two reconciler
passes (`StopStartTasks`, `CountAllTasks`) become pure functions from the
scheduler state to a new state plus a log of issued actuation units and
anomalies.  The asynchronous goroutine bodies (the network portions of
`startTask`/`stopTask`) are outside the sequential model; the claims
verified here concern the synchronous planning/observation logic.
-/

namespace Microscaling

/-- Go: `const labelMap string = "com.microscaling.microscaling-in-a-box"`. -/
def labelKeyName : String := "com.microscaling.microscaling-in-a-box"

/-- Go: `type dockerContainer struct { state string; updated bool }`. -/
structure DockerContainer where
  state : String
  updated : Bool
deriving DecidableEq, Repr

/-- Modelled from the spec: the task descriptor of the external
`demand` package (missing from `src/`): fields `name, image, demand,
requested, running` (launch parameters other than `image` are opaque to
the logic verified here and omitted). -/
structure Task where
  name : String
  image : String
  demand : Int
  requested : Int
  running : Int
deriving DecidableEq, Repr

/-- Go: `docker.APIContainers` — the fields read by `CountAllTasks`:
`ID`, `Status`, `Labels`. -/
structure APIContainer where
  id : String
  status : String
  labels : List (String × String)
deriving DecidableEq, Repr

/-- Go map `map[string]*dockerContainer` (containers indexed by ID). -/
abbrev ContainerMap := List (String × DockerContainer)

/-- Go map `map[string]map[string]*dockerContainer` (tasks indexed by name). -/
abbrev TaskContainers := List (String × ContainerMap)

/-- Association-list lookup (Go map read). -/
def lookupL {α : Type} : List (String × α) → String → Option α
  | [], _ => none
  | (k', v) :: rest, k => if k' == k then some v else lookupL rest k

/-- Association-list update (Go map write): replaces the first binding of
the key, or appends a fresh binding. -/
def setL {α : Type} : List (String × α) → String → α → List (String × α)
  | [], k, v => [(k, v)]
  | (k', v') :: rest, k, v => if k' == k then (k, v) :: rest else (k', v') :: setL rest k v

/-- Association-list delete (Go `delete`): removes the first binding. -/
def delL {α : Type} : List (String × α) → String → List (String × α)
  | [], _ => []
  | (k', v') :: rest, k => if k' == k then rest else (k', v') :: delL rest k

/-- Read of `c.taskContainers[tn][id]` (a read of a missing/`nil` inner
map yields nothing, as in Go). -/
def getCont (store : TaskContainers) (tn id : String) : Option DockerContainer :=
  match lookupL store tn with
  | none => none
  | some m => lookupL m id

/-- Write of `c.taskContainers[tn][id] = c`. -/
def setCont (store : TaskContainers) (tn id : String) (c : DockerContainer) : TaskContainers :=
  setL store tn (setL ((lookupL store tn).getD []) id c)

/-- `pat` is a prefix of `s` (character lists). -/
def charsPrefixOf : List Char → List Char → Bool
  | [], _ => true
  | _ :: _, [] => false
  | a :: as, b :: bs => a == b && charsPrefixOf as bs

/-- `pat` occurs inside `s` (character lists). -/
def charsInfixOf (pat : List Char) : List Char → Bool
  | [] => charsPrefixOf pat []
  | b :: bs => charsPrefixOf pat (b :: bs) || charsInfixOf pat bs

/-- Go `strings.Contains s pat`. -/
def strContains (s pat : String) : Bool := charsInfixOf pat.toList s.toList

/-- Go: `func statusToState(status string) string` — maps a Docker status
string to a canonical container state. -/
def statusToState (status : String) : String :=
  if strContains status "Up" then "running"
  else if strContains status "Removal" then "removing"
  else if strContains status "Exit" then "exited"
  else if strContains status "Dead" then "dead"
  else "unknown"

/-- Go: `container.ID[:12]` — the canonical truncated container ID. -/
def trunc (s : String) : String := s.take 12

/-- Modelled from the spec: `running.GetTask(name)` of the external
`demand` package (missing from `src/`): lookup-by-name that fails for
unmanaged names. -/
def GetTask (tasks : List Task) (name : String) : Option Task :=
  tasks.find? (fun t => t.name == name)

/-- The ownership label of a reported container, if any. -/
def labelOf (c : APIContainer) : Option String := lookupL c.labels labelKeyName

/-- Go: `t.Running++` on the task returned by `GetTask` (the first task
with the given name). -/
def incRunning : List Task → String → List Task
  | [], _ => []
  | t :: rest, name =>
      if t.name == name then { t with running := t.running + 1 } :: rest
      else t :: incRunning rest name

/-- One issued actuation unit of a Scale Reconciler pass: a call of
`stopTask` (with its returned error) or of `startTask`. -/
inductive Event where
  | stopUnit (task : String) (err : Option String)
  | startUnit (task : String)
deriving DecidableEq, Repr

/-- One logged anomaly of an Observation Reconciler pass. -/
inductive Anomaly where
  | notManaging (task : String)
  | unknownStatus (status : String)
  | newContainer (id : String) (state : String)
  | unexpectedRemoval (id : String)
  | unexpectedExit (id : String)
  | containerDead (id : String)
  | badState (id : String) (state : String)
deriving DecidableEq, Repr

/-! ## The Lifecycle Actuator: `stopTask` (synchronous part)

`stopTask` (docker.go lines 140–158): under the lock, scan the task's
containers for the first one in state `"running"`, mark it `"stopping"`
and succeed; otherwise fail.  The spawned goroutine (the actual
stop/remove network calls) is asynchronous and outside this model. -/

/-- The ID of the first container record in state `"running"` (the
container `stopTask` selects to kill). -/
def findRunning : ContainerMap → Option String
  | [] => none
  | (id, c) :: rest => if c.state == "running" then some id else findRunning rest

/-- Transition the first record in state `"running"` to `"stopping"`. -/
def markStopping : ContainerMap → ContainerMap
  | [] => []
  | (id, c) :: rest =>
      if c.state == "running" then (id, { c with state := "stopping" }) :: rest
      else (id, c) :: markStopping rest

/-- Go: `func (c *DockerScheduler) stopTask(task *demand.Task) error` —
the synchronous planning part: select and mark a running container, or
fail with the no-container error. -/
def stopTask (store : TaskContainers) (name : String) : TaskContainers × Option String :=
  let m := (lookupL store name).getD []
  match findRunning m with
  | some _ => (setL store name (markStopping m), none)
  | none => (store, some ("[stop] No containers of type " ++ name ++ " to kill"))

/-! ## The Scale Reconciler: `StopStartTasks` -/

/-- The inner scale-down loop of `StopStartTasks` (lines 219–225):
`diff` iterations of `stopTask` + `task.Requested--`, recording each
issued Stop unit; the pass's `err` variable is overwritten by every
`stopTask` result. -/
def stopLoop : Nat → Task → TaskContainers → Option String →
    Task × TaskContainers × List Event × Option String
  | 0, t, store, err => (t, store, [], err)
  | n + 1, t, store, _ =>
      let r := stopTask store t.name
      let rest := stopLoop n { t with requested := t.requested - 1 } r.fst r.snd
      (rest.fst, rest.snd.fst, Event.stopUnit t.name r.snd :: rest.snd.snd.fst,
        rest.snd.snd.snd)

/-- The inner scale-up loop of `StopStartTasks` (lines 232–235):
`diff` iterations of `startTask` + `task.Requested++`.  `startTask`'s
synchronous part only spawns the goroutine, so the loop issues Start
units and increments `requested`; it touches neither the store nor the
pass's `err`. -/
def startLoop : Nat → Task → Task × List Event
  | 0, t => (t, [])
  | n + 1, t =>
      let rest := startLoop n { t with requested := t.requested + 1 }
      (rest.fst, Event.startUnit t.name :: rest.snd)

/-- The scale-down phase (lines 216–226): process each `tooMany` task in
order, threading the store and the `err` variable. -/
def scaleDown : List Task → TaskContainers → Option String →
    List Task × TaskContainers × List Event × Option String
  | [], store, err => ([], store, [], err)
  | t :: rest, store, err =>
      let r := stopLoop (t.requested - t.demand).toNat t store err
      let rr := scaleDown rest r.snd.fst r.snd.snd.snd
      (r.fst :: rr.fst, rr.snd.fst, r.snd.snd.fst ++ rr.snd.snd.fst, rr.snd.snd.snd)

/-- The scale-up phase (lines 229–236). -/
def scaleUp : List Task → List Task × List Event
  | [] => ([], [])
  | t :: rest =>
      let r := startLoop (t.demand - t.requested).toNat t
      let rr := scaleUp rest
      (r.fst :: rr.fst, r.snd ++ rr.snd)

/-- The `tooFew` partition (line 204): `Demand > Requested && Requested == Running`. -/
def tooFewOf (tasks : List Task) : List Task :=
  tasks.filter fun t => t.demand > t.requested && t.requested == t.running

/-- The `tooMany` partition (line 209): `Demand < Requested && Requested == Running`. -/
def tooManyOf (tasks : List Task) : List Task :=
  tasks.filter fun t => t.demand < t.requested && t.requested == t.running

/-- Result of one Scale Reconciler pass. -/
structure ScaleResult where
  tasks : List Task
  store : TaskContainers
  events : List Event
  err : Option String
deriving DecidableEq, Repr

/-- Go: `func (c *DockerScheduler) StopStartTasks(tasks *demand.Tasks) error`
(lines 192–241): partition, scale down, scale up, and return the final
value of the pass's `err` variable (last `stopTask` result, `nil` when no
Stop was invoked).  The task structs are mutated through pointers in Go;
here the updated values are merged back into the task list by name. -/
def StopStartTasks (tasks : List Task) (store : TaskContainers) : ScaleResult :=
  let tooFew := tooFewOf tasks
  let tooMany := tooManyOf tasks
  let down := scaleDown tooMany store none
  let up := scaleUp tooFew
  let updated := down.fst ++ up.fst
  { tasks := tasks.map fun t => ((updated.find? fun u => u.name == t.name).getD t),
    store := down.snd.fst,
    events := down.snd.snd.fst ++ up.snd,
    err := down.snd.snd.snd }

/-! ## Registration: `InitScheduler` -/

/-- Go: `func (c *DockerScheduler) InitScheduler(task *demand.Task) (err error)`
(lines 55–79): unconditionally installs a fresh empty container map for
the task name; when `pullImages` is set, issues the pull and returns its
error (`pullErr` stands for the runtime's pull result). -/
def InitScheduler (store : TaskContainers) (name : String) (pullImages : Bool)
    (pullErr : Option String) : TaskContainers × Option String :=
  (setL store name [], if pullImages then pullErr else none)

/-! ## The Observation Reconciler: `CountAllTasks` -/

/-- State threaded through the per-container loop of `CountAllTasks`. -/
structure ObsState where
  tasks : List Task
  store : TaskContainers
  anoms : List Anomaly
deriving DecidableEq, Repr

/-- The state written back by the `switch newState` (lines 308–328):
observed `"running"` promotes only `"starting"`/unset records; observed
`"dead"` always overwrites; other observations leave the state alone. -/
def switchState (s u : String) : String :=
  if u == "running" then (if s == "starting" || s == "" then "running" else s)
  else if u == "dead" then "dead"
  else s

/-- The anomalies logged by the `switch newState` (lines 308–328). -/
def switchAnoms (s u id : String) : List Anomaly :=
  if u == "removing" then (if s != "removing" then [Anomaly.unexpectedRemoval id] else [])
  else if u == "exited" then
    (if s != "stopping" && s != "exited" then [Anomaly.unexpectedExit id] else [])
  else if u == "dead" then (if s != "dead" then [Anomaly.containerDead id] else [])
  else []

/-- Whether the `switch` increments the task's `Running` counter
(only the `"running"` case does, line 310). -/
def switchInc (u : String) : Bool := u == "running"

/-- The body of the per-container loop of `CountAllTasks`
(lines 289–333): ignore unlabelled containers; log unmanaged labels;
otherwise map the status, create a missing record (empty prior state),
apply the switch and mark the record observed. -/
def processContainer (st : ObsState) (cont : APIContainer) : ObsState :=
  match labelOf cont with
  | none => st
  | some taskName =>
    match GetTask st.tasks taskName with
    | none => { st with anoms := st.anoms ++ [Anomaly.notManaging taskName] }
    | some _ =>
      let u := statusToState cont.status
      let unkA : List Anomaly :=
        if u == "unknown" then [Anomaly.unknownStatus cont.status] else []
      let id := trunc cont.id
      let prior := getCont st.store taskName id
      let s0 : String := (prior.map DockerContainer.state).getD ""
      let newA : List Anomaly :=
        if prior.isSome then [] else [Anomaly.newContainer id u]
      { tasks := if switchInc u then incRunning st.tasks taskName else st.tasks,
        store := setCont st.store taskName id
          { state := switchState s0 u, updated := true },
        anoms := st.anoms ++ unkA ++ newA ++ switchAnoms s0 u id }

/-- Go lines 277–284 (task part): `t.Running = 0` for every task. -/
def resetTasks (tasks : List Task) : List Task :=
  tasks.map fun t => { t with running := 0 }

/-- `cc.updated = false` for every record of one container map. -/
def resetMap (m : ContainerMap) : ContainerMap :=
  m.map fun p => (p.fst, { p.snd with updated := false })

/-- Go lines 277–284 (store part): clear the `updated` flag of every
record of every task in the list. -/
def resetStore : List Task → TaskContainers → TaskContainers
  | [], store => store
  | t :: rest, store =>
      match lookupL store t.name with
      | none => resetStore rest store
      | some m => resetStore rest (setL store t.name (resetMap m))

/-- The per-record garbage-collection decision (lines 337–347): records
seen this pass are kept; unseen `"removing"`/`"exited"` records are
deleted; unseen records in a state other than `"created"`, `"starting"`,
`"stopping"` are kept and logged as anomalies. -/
def sweepMap : ContainerMap → ContainerMap × List Anomaly
  | [] => ([], [])
  | (id, c) :: rest =>
      let r := sweepMap rest
      if c.updated then ((id, c) :: r.fst, r.snd)
      else if c.state == "removing" || c.state == "exited" then (r.fst, r.snd)
      else if c.state != "created" && c.state != "starting" && c.state != "stopping" then
        ((id, c) :: r.fst, Anomaly.badState id c.state :: r.snd)
      else ((id, c) :: r.fst, r.snd)

/-- Go lines 335–348: run the garbage-collection sweep over the
container map of every task in the list. -/
def sweepTasks : List Task → TaskContainers → TaskContainers × List Anomaly
  | [], store => (store, [])
  | t :: rest, store =>
      match lookupL store t.name with
      | none => sweepTasks rest store
      | some m =>
          let r := sweepMap m
          let rr := sweepTasks rest (setL store t.name r.fst)
          (rr.fst, r.snd ++ rr.snd)

/-- The reset + per-container observation loop (lines 271–333). -/
def processPhase (tasks : List Task) (store : TaskContainers)
    (containers : List APIContainer) : ObsState :=
  containers.foldl processContainer
    { tasks := resetTasks tasks, store := resetStore tasks store, anoms := [] }

/-- Result of one Observation Reconciler pass. -/
structure ObsResult where
  tasks : List Task
  store : TaskContainers
  anoms : List Anomaly
  err : Option String
deriving DecidableEq, Repr

/-- Go: `func (c *DockerScheduler) CountAllTasks(running *demand.Tasks) error`
(lines 261–351): on a failed container listing, return the wrapped error
with nothing touched; otherwise reset, observe every reported container,
and garbage-collect, returning `nil`.  `listResult` stands for the
runtime's `ListContainers` result. -/
def CountAllTasks (tasks : List Task) (store : TaskContainers)
    (listResult : Except String (List APIContainer)) : ObsResult :=
  match listResult with
  | Except.error e =>
      { tasks := tasks, store := store, anoms := [],
        err := some ("Failed to list containers: " ++ e) }
  | Except.ok containers =>
      let st := processPhase tasks store containers
      let sw := sweepTasks st.tasks st.store
      { tasks := st.tasks, store := sw.fst, anoms := st.anoms ++ sw.snd, err := none }

/-! ## Derived observables used in the statements -/

/-- The task name an actuation unit was issued for. -/
def evName : Event → String
  | Event.stopUnit tn _ => tn
  | Event.startUnit tn => tn

/-- Whether an event is a Stop unit for the given task. -/
def isStopFor (name : String) : Event → Bool
  | Event.stopUnit tn _ => tn == name
  | Event.startUnit _ => false

/-- Whether an event is a Start unit for the given task. -/
def isStartFor (name : String) : Event → Bool
  | Event.stopUnit _ _ => false
  | Event.startUnit tn => tn == name

/-- Number of Stop units issued for a task in a pass. -/
def countStop (evs : List Event) (name : String) : Nat :=
  (evs.filter (isStopFor name)).length

/-- Number of Start units issued for a task in a pass. -/
def countStart (evs : List Event) (name : String) : Nat :=
  (evs.filter (isStartFor name)).length

/-- The results of the Stop invocations of a pass, in issue order. -/
def stopResults (evs : List Event) : List (Option String) :=
  evs.filterMap fun e =>
    match e with
    | Event.stopUnit _ r => some r
    | Event.startUnit _ => none

/-- Number of records of a container map in state `"running"`. -/
def countRunningRecs (m : ContainerMap) : Nat :=
  (m.filter fun p => p.snd.state == "running").length

/-- Well-formedness of a container map as the image of a Go map:
container IDs are pairwise distinct. -/
def mapWF (m : ContainerMap) : Prop := (m.map Prod.fst).Nodup

/-- Well-formedness of the record store as the image of a Go map of
maps: task names pairwise distinct, and each inner map well-formed. -/
def storeWF (store : TaskContainers) : Prop :=
  (store.map Prod.fst).Nodup ∧ ∀ p ∈ store, mapWF p.snd

instance : DecidablePred mapWF := fun m =>
  inferInstanceAs (Decidable ((m.map Prod.fst).Nodup))

instance : DecidablePred storeWF := fun store =>
  inferInstanceAs (Decidable (_ ∧ _))

/-- The result of the last Stop invocation among a pass's events,
`dflt` when none occurs after the prefix consumed so far. -/
def lastStopResult : List Event → Option String → Option String
  | [], dflt => dflt
  | Event.stopUnit _ r :: rest, _ => lastStopResult rest r
  | Event.startUnit _ :: rest, dflt => lastStopResult rest dflt

/-! ## Concrete fixtures used by witnesses and counterexamples -/

/-- A store for the Stop-operation scenario: task `"web"` with one
created and one running container. -/
def fixStoreC6 : TaskContainers :=
  [("web", [("c0", ⟨"created", false⟩), ("c1", ⟨"running", false⟩)])]

/-- The observation state for the stopping-observed-running scenario:
one managed task `"web"` whose single record is mid-termination. -/
def fixStC2 : ObsState :=
  { tasks := [⟨"web", "i", 1, 1, 0⟩],
    store := [("web", [("abcdefabcdef", ⟨"stopping", false⟩)])],
    anoms := [] }

/-- A runtime-reported container for the scenario: owned by `"web"`,
status `"Up 2 minutes"`. -/
def fixContC2 : APIContainer :=
  { id := "abcdefabcdefXYZ", status := "Up 2 minutes",
    labels := [(labelKeyName, "web")] }

/-- Tasks for the garbage-collection scenario. -/
def fixTasksC5 : List Task := [⟨"web", "i", 0, 0, 0⟩]

/-- A store for the garbage-collection scenario: an unobserved
`"removing"` record, an unobserved `"created"` record, and an unobserved
`"dead"` record. -/
def fixStoreC5 : TaskContainers :=
  [("web", [("r1", ⟨"removing", true⟩), ("k1", ⟨"created", true⟩),
            ("b1", ⟨"dead", true⟩)])]

/-- Tasks for the observation-idempotence scenarios. -/
def fixTasksC8 : List Task := [⟨"web", "i", 1, 1, 1⟩]

/-- A store holding a record mid-removal. -/
def fixStoreC8 : TaskContainers :=
  [("web", [("c1c1c1c1c1c1", ⟨"removing", false⟩)])]

/-- A pathological report: the same truncated container ID listed twice,
first with a removal status, then as dead. -/
def fixContsC8 : List APIContainer :=
  [⟨"c1c1c1c1c1c1ff", "Removal In Progress", [(labelKeyName, "web")]⟩,
   ⟨"c1c1c1c1c1c1ff", "Dead", [(labelKeyName, "web")]⟩]

/-- Tasks for the idempotence witness. -/
def fixTasksW8 : List Task := [⟨"web", "i", 2, 2, 1⟩]

/-- Store for the idempotence witness: a `"stopping"` record that is
still reported up, an unobserved `"dead"` record, and an unobserved
`"removing"` record. -/
def fixStoreW8 : TaskContainers :=
  [("web", [("aaaaaaaaaaaa", ⟨"stopping", true⟩), ("cccccccccccc", ⟨"dead", true⟩),
            ("dddddddddddd", ⟨"removing", true⟩)])]

/-- Report for the idempotence witness: distinct truncated IDs. -/
def fixContsW8 : List APIContainer :=
  [⟨"aaaaaaaaaaaa", "Up 2 minutes", [(labelKeyName, "web")]⟩,
   ⟨"bbbbbbbbbbbb", "Exited (0) 3 minutes ago", [(labelKeyName, "web")]⟩]

/-! ## Basic association-list lemmas -/

theorem lookupL_setL_self {α : Type} (l : List (String × α)) (k : String) (v : α) :
    lookupL (setL l k v) k = some v := by
  induction l with
  | nil => simp [setL, lookupL]
  | cons p rest ih =>
      obtain ⟨k', v'⟩ := p
      by_cases h : k' = k
      · simp [setL, lookupL, h]
      · simp [setL, lookupL, h, ih]

theorem lookupL_setL_ne {α : Type} (l : List (String × α)) (k k' : String) (v : α)
    (h : k' ≠ k) : lookupL (setL l k v) k' = lookupL l k' := by
  induction l with
  | nil => simp [setL, lookupL, Ne.symm h]
  | cons p rest ih =>
      obtain ⟨k0, v0⟩ := p
      by_cases h0 : k0 = k
      · subst h0
        simp [setL, lookupL, Ne.symm h]
      · by_cases h1 : k0 = k'
        · simp [setL, lookupL, h0, h1, h]
        · simp [setL, lookupL, h0, h1, ih]

theorem lookupL_of_mem {α : Type} (l : List (String × α)) (k : String) (v : α)
    (hmem : (k, v) ∈ l) (hnd : (l.map Prod.fst).Nodup) : lookupL l k = some v := by
  induction l with
  | nil => simp at hmem
  | cons p rest ih =>
      obtain ⟨k0, v0⟩ := p
      simp only [List.map_cons, List.nodup_cons] at hnd
      rcases List.mem_cons.mp hmem with h | h
      · injection h with h1 h2
        simp [lookupL, h1, h2]
      · have hk : k0 ≠ k := by
          intro hh
          subst hh
          exact hnd.1 (List.mem_map.mpr ⟨(k0, v), h, rfl⟩)
        simp [lookupL, hk, ih h hnd.2]

theorem mem_of_lookupL {α : Type} (l : List (String × α)) (k : String) (v : α)
    (h : lookupL l k = some v) : (k, v) ∈ l := by
  induction l with
  | nil => simp [lookupL] at h
  | cons p rest ih =>
      obtain ⟨k0, v0⟩ := p
      by_cases h0 : k0 = k
      · subst h0
        simp [lookupL] at h
        simp [h]
      · simp [lookupL, h0] at h
        exact List.mem_cons_of_mem _ (ih h)

/-! ## Claim C10: a failed container listing leaves everything unchanged -/

/-- C10: if the runtime's `ListContainers` call fails, the Observation
Reconciler pass returns the wrapped error, every task keeps its prior
`running` value, no anomaly is logged, and the record store is returned
exactly as it was — the list call happens before any mutation. -/
theorem claim10_list_error (tasks : List Task) (store : TaskContainers) (e : String) :
    CountAllTasks tasks store (Except.error e) =
      { tasks := tasks, store := store, anoms := [],
        err := some ("Failed to list containers: " ++ e) } := rfl

/-! ## Claim C7: duplicate registration -/

/-- C7 counterexample: registering the task `"web"` and then registering
it a second time does not fail (no `AlreadyManaged` error exists in
`InitScheduler`); moreover a second registration of a task that already
holds a container record silently replaces that record map with a fresh
empty one. -/
theorem claim7_counterexample :
    (InitScheduler (InitScheduler [] "web" false none).fst "web" false none).snd = none ∧
    (InitScheduler [("web", [("c1", ⟨"running", true⟩)])] "web" false none).fst =
      [("web", [])] := by
  constructor <;> rfl

/-- C7 amended: calling `InitScheduler` a second time with the same task
name succeeds again (its only possible error is the image-pull result;
there is no `AlreadyManaged` check) and unconditionally replaces the
task's container map with a fresh empty one. -/
theorem claim7_init_overwrites (store : TaskContainers) (name : String)
    (pullImages : Bool) (pullErr : Option String) :
    (InitScheduler store name pullImages pullErr).snd =
      (if pullImages then pullErr else none) ∧
    lookupL (InitScheduler store name pullImages pullErr).fst name = some [] := by
  exact ⟨rfl, lookupL_setL_self store name []⟩

/-! ## Claim C3: the error returned by a Scale Reconciler pass -/

theorem stopLoop_err (n : Nat) (t : Task) (store : TaskContainers) (e : Option String) :
    (stopLoop n t store e).snd.snd.snd =
      lastStopResult (stopLoop n t store e).snd.snd.fst e := by
  induction n generalizing t store e with
  | zero => rfl
  | succ n ih => simp [stopLoop, lastStopResult, ih]

theorem lastStopResult_append (l1 l2 : List Event) (e : Option String) :
    lastStopResult (l1 ++ l2) e = lastStopResult l2 (lastStopResult l1 e) := by
  induction l1 generalizing e with
  | nil => rfl
  | cons ev rest ih =>
      cases ev <;> simp [lastStopResult, ih]

theorem scaleDown_err (ts : List Task) (store : TaskContainers) (e : Option String) :
    (scaleDown ts store e).snd.snd.snd =
      lastStopResult (scaleDown ts store e).snd.snd.fst e := by
  induction ts generalizing store e with
  | nil => rfl
  | cons t rest ih =>
      simp only [scaleDown, lastStopResult_append, ih, stopLoop_err]

theorem startLoop_events (n : Nat) (t : Task) :
    (startLoop n t).snd = List.replicate n (Event.startUnit t.name) := by
  induction n generalizing t with
  | zero => rfl
  | succ n ih => simp [startLoop, ih, List.replicate_succ]

theorem scaleUp_no_stops (ts : List Task) (e : Option String) :
    lastStopResult (scaleUp ts).snd e = e := by
  induction ts generalizing e with
  | nil => rfl
  | cons t rest ih =>
      simp only [scaleUp, lastStopResult_append]
      rw [startLoop_events]
      have hrep : ∀ (m : Nat) (nm : String) (e' : Option String),
          lastStopResult (List.replicate m (Event.startUnit nm)) e' = e' := by
        intro m nm e'
        induction m with
        | zero => rfl
        | succ m ihm => simp [List.replicate_succ, lastStopResult, ihm]
      rw [hrep, ih]

/-- C3 counterexample: with two tasks both selected for scale-down, the
Stop invocation for `"web"` fails with `NoContainerToStop` (no record of
`"web"` is in state `"running"`), the later Stop invocation for `"db"`
succeeds, and the pass returns `nil` — a Stop invocation failed yet the
pass's returned error is not that (or any) failure. -/
theorem claim3_counterexample :
    (StopStartTasks
        [⟨"web", "i", 0, 1, 1⟩, ⟨"db", "i", 0, 1, 1⟩]
        [("web", []), ("db", [("d1", ⟨"running", false⟩)])]).events =
      [Event.stopUnit "web" (some "[stop] No containers of type web to kill"),
       Event.stopUnit "db" none] ∧
    (StopStartTasks
        [⟨"web", "i", 0, 1, 1⟩, ⟨"db", "i", 0, 1, 1⟩]
        [("web", []), ("db", [("d1", ⟨"running", false⟩)])]).err = none := by
  constructor <;> rfl

/-- C3 amended: a Scale Reconciler pass returns the result of the *last*
Stop invocation it issued — `nil` when that invocation succeeded or when
no Stop was issued at all, even if an earlier Stop invocation failed;
Start units carry no error, so Start-phase failures never propagate into
the returned error. -/
theorem claim3_err_last_stop (tasks : List Task) (store : TaskContainers) :
    (StopStartTasks tasks store).err =
      lastStopResult (StopStartTasks tasks store).events none := by
  simp only [StopStartTasks, lastStopResult_append, scaleUp_no_stops, scaleDown_err]

/-! ## Lemmas on the scale phases: events, counts, task updates -/

theorem countStop_append (l1 l2 : List Event) (name : String) :
    countStop (l1 ++ l2) name = countStop l1 name + countStop l2 name := by
  simp [countStop, List.filter_append]

theorem countStart_append (l1 l2 : List Event) (name : String) :
    countStart (l1 ++ l2) name = countStart l1 name + countStart l2 name := by
  simp [countStart, List.filter_append]

theorem countStop_cons (ev : Event) (l : List Event) (name : String) :
    countStop (ev :: l) name =
      (if isStopFor name ev = true then 1 else 0) + countStop l name := by
  unfold countStop
  rw [List.filter_cons]
  by_cases h : isStopFor name ev = true <;> simp [h, Nat.add_comm]

theorem countStart_cons (ev : Event) (l : List Event) (name : String) :
    countStart (ev :: l) name =
      (if isStartFor name ev = true then 1 else 0) + countStart l name := by
  unfold countStart
  rw [List.filter_cons]
  by_cases h : isStartFor name ev = true <;> simp [h, Nat.add_comm]

theorem stopLoop_countStop (n : Nat) (t : Task) (store : TaskContainers)
    (e : Option String) (name : String) :
    countStop (stopLoop n t store e).snd.snd.fst name =
      if t.name = name then n else 0 := by
  induction n generalizing t store e with
  | zero => simp [stopLoop, countStop]
  | succ n ih =>
      simp only [stopLoop, countStop_cons, isStopFor, ih]
      by_cases h : t.name = name <;> simp [h, Nat.add_comm]

theorem stopLoop_countStart (n : Nat) (t : Task) (store : TaskContainers)
    (e : Option String) (name : String) :
    countStart (stopLoop n t store e).snd.snd.fst name = 0 := by
  induction n generalizing t store e with
  | zero => simp [stopLoop, countStart]
  | succ n ih => simp [stopLoop, countStart_cons, isStartFor, ih]

theorem countStart_replicate_start (n : Nat) (nm name : String) :
    countStart (List.replicate n (Event.startUnit nm)) name =
      if nm = name then n else 0 := by
  induction n with
  | zero => simp [countStart]
  | succ n ih =>
      simp only [List.replicate_succ, countStart_cons, isStartFor, ih]
      by_cases h : nm = name <;> simp [h, Nat.add_comm]

theorem startLoop_countStart (n : Nat) (t : Task) (name : String) :
    countStart (startLoop n t).snd name = if t.name = name then n else 0 := by
  rw [startLoop_events, countStart_replicate_start]

theorem startLoop_countStop (n : Nat) (t : Task) (name : String) :
    countStop (startLoop n t).snd name = 0 := by
  rw [startLoop_events]
  induction n with
  | zero => simp [countStop]
  | succ n ih => simp [List.replicate_succ, countStop_cons, isStopFor, ih]

theorem stopLoop_task (n : Nat) (t : Task) (store : TaskContainers) (e : Option String) :
    (stopLoop n t store e).fst = { t with requested := t.requested - (n : Int) } := by
  induction n generalizing t store e with
  | zero => simp [stopLoop]
  | succ n ih =>
      simp only [stopLoop, ih]
      congr 1
      push_cast
      ring

theorem startLoop_task (n : Nat) (t : Task) :
    (startLoop n t).fst = { t with requested := t.requested + (n : Int) } := by
  induction n generalizing t with
  | zero => simp [startLoop]
  | succ n ih =>
      simp only [startLoop, ih]
      congr 1
      push_cast
      ring

theorem scaleDown_tasks (ts : List Task) (store : TaskContainers) (e : Option String) :
    (scaleDown ts store e).fst =
      ts.map fun u =>
        { u with requested := u.requested - (((u.requested - u.demand).toNat : Nat) : Int) } := by
  induction ts generalizing store e with
  | nil => rfl
  | cons t rest ih => simp [scaleDown, stopLoop_task, ih]

theorem scaleUp_tasks (ts : List Task) :
    (scaleUp ts).fst =
      ts.map fun u =>
        { u with requested := u.requested + (((u.demand - u.requested).toNat : Nat) : Int) } := by
  induction ts with
  | nil => rfl
  | cons t rest ih => simp [scaleUp, startLoop_task, ih]

theorem scaleDown_countStop (ts : List Task) (store : TaskContainers) (e : Option String)
    (name : String) (hno : ∀ u ∈ ts, u.name ≠ name) :
    countStop (scaleDown ts store e).snd.snd.fst name = 0 := by
  induction ts generalizing store e with
  | nil => simp [scaleDown, countStop]
  | cons t rest ih =>
      simp only [scaleDown, countStop_append]
      rw [stopLoop_countStop]
      simp [hno t (List.mem_cons_self t rest),
        ih _ _ fun u hu => hno u (List.mem_cons_of_mem t hu)]

theorem scaleDown_countStop_mem (ts : List Task) (store : TaskContainers)
    (e : Option String) (t : Task) (hnd : (ts.map Task.name).Nodup) (ht : t ∈ ts) :
    countStop (scaleDown ts store e).snd.snd.fst t.name = (t.requested - t.demand).toNat := by
  induction ts generalizing store e with
  | nil => simp at ht
  | cons u rest ih =>
      simp only [List.map_cons, List.nodup_cons] at hnd
      rcases List.mem_cons.mp ht with h | h
      · subst h
        simp only [scaleDown, countStop_append]
        rw [stopLoop_countStop]
        have hno : ∀ w ∈ rest, w.name ≠ t.name := by
          intro w hw hwn
          exact hnd.1 (List.mem_map.mpr ⟨w, hw, hwn⟩)
        simp [scaleDown_countStop _ _ _ _ hno]
      · have hne : u.name ≠ t.name := by
          intro hh
          exact hnd.1 (List.mem_map.mpr ⟨t, h, hh.symm⟩)
        simp only [scaleDown, countStop_append]
        rw [stopLoop_countStop]
        simp [hne, ih _ _ hnd.2 h]

theorem scaleDown_countStart (ts : List Task) (store : TaskContainers) (e : Option String)
    (name : String) :
    countStart (scaleDown ts store e).snd.snd.fst name = 0 := by
  induction ts generalizing store e with
  | nil => simp [scaleDown, countStart]
  | cons t rest ih =>
      simp [scaleDown, countStart_append, stopLoop_countStart, ih]

theorem scaleUp_countStop (ts : List Task) (name : String) :
    countStop (scaleUp ts).snd name = 0 := by
  induction ts with
  | nil => simp [scaleUp, countStop]
  | cons t rest ih => simp [scaleUp, countStop_append, startLoop_countStop, ih]

theorem scaleUp_countStart (ts : List Task) (name : String)
    (hno : ∀ u ∈ ts, u.name ≠ name) :
    countStart (scaleUp ts).snd name = 0 := by
  induction ts with
  | nil => simp [scaleUp, countStart]
  | cons t rest ih =>
      simp only [scaleUp, countStart_append]
      rw [startLoop_countStart]
      simp [hno t (List.mem_cons_self t rest),
        ih fun u hu => hno u (List.mem_cons_of_mem t hu)]

theorem scaleUp_countStart_mem (ts : List Task) (t : Task)
    (hnd : (ts.map Task.name).Nodup) (ht : t ∈ ts) :
    countStart (scaleUp ts).snd t.name = (t.demand - t.requested).toNat := by
  induction ts with
  | nil => simp at ht
  | cons u rest ih =>
      simp only [List.map_cons, List.nodup_cons] at hnd
      rcases List.mem_cons.mp ht with h | h
      · subst h
        simp only [scaleUp, countStart_append]
        rw [startLoop_countStart]
        have hno : ∀ w ∈ rest, w.name ≠ t.name := by
          intro w hw hwn
          exact hnd.1 (List.mem_map.mpr ⟨w, hw, hwn⟩)
        simp [scaleUp_countStart _ _ hno]
      · have hne : u.name ≠ t.name := by
          intro hh
          exact hnd.1 (List.mem_map.mpr ⟨t, h, hh.symm⟩)
        simp only [scaleUp, countStart_append]
        rw [startLoop_countStart]
        simp [hne, ih hnd.2 h]

theorem stopLoop_events_shape (n : Nat) (t : Task) (store : TaskContainers)
    (e : Option String) :
    ∀ ev ∈ (stopLoop n t store e).snd.snd.fst, ∃ r, ev = Event.stopUnit t.name r := by
  induction n generalizing t store e with
  | zero => simp [stopLoop]
  | succ n ih =>
      intro ev hev
      simp only [stopLoop, List.mem_cons] at hev
      rcases hev with h | h
      · exact ⟨_, h⟩
      · obtain ⟨r, hr⟩ := ih { t with requested := t.requested - 1 } _ _ ev h
        exact ⟨r, hr⟩

theorem scaleDown_events_shape (ts : List Task) (store : TaskContainers)
    (e : Option String) :
    ∀ ev ∈ (scaleDown ts store e).snd.snd.fst,
      ∃ u ∈ ts, ∃ r, ev = Event.stopUnit u.name r := by
  induction ts generalizing store e with
  | nil => simp [scaleDown]
  | cons t rest ih =>
      intro ev hev
      simp only [scaleDown, List.mem_append] at hev
      rcases hev with h | h
      · obtain ⟨r, rfl⟩ := stopLoop_events_shape _ _ _ _ ev h
        exact ⟨t, List.mem_cons_self t rest, r, rfl⟩
      · obtain ⟨u, hu, r, rfl⟩ := ih _ _ ev h
        exact ⟨u, List.mem_cons_of_mem t hu, r, rfl⟩

theorem scaleUp_events_shape (ts : List Task) :
    ∀ ev ∈ (scaleUp ts).snd, ∃ u ∈ ts, ev = Event.startUnit u.name := by
  induction ts with
  | nil => simp [scaleUp]
  | cons t rest ih =>
      intro ev hev
      simp only [scaleUp, List.mem_append] at hev
      rcases hev with h | h
      · rw [startLoop_events] at h
        rw [List.eq_of_mem_replicate h]
        exact ⟨t, List.mem_cons_self t rest, rfl⟩
      · obtain ⟨u, hu, rfl⟩ := ih ev h
        exact ⟨u, List.mem_cons_of_mem t hu, rfl⟩

/-! ## Claim C1: the partition of tasks in a Scale Reconciler pass -/

/-- C1: a task enters `tooFew` exactly when `demand > requested` and
`requested == running`, enters `tooMany` exactly when
`demand < requested` and `requested == running`, and a task with
`requested != running` is skipped entirely: no Start or Stop unit of the
pass is issued for it, whatever its `demand`. -/
theorem claim1_scale_partition (tasks : List Task) (store : TaskContainers)
    (hnd : (tasks.map Task.name).Nodup) (t : Task) (ht : t ∈ tasks) :
    (t ∈ tooFewOf tasks ↔ t.demand > t.requested ∧ t.requested = t.running) ∧
    (t ∈ tooManyOf tasks ↔ t.demand < t.requested ∧ t.requested = t.running) ∧
    (t.requested ≠ t.running →
      ∀ ev ∈ (StopStartTasks tasks store).events, evName ev ≠ t.name) := by
  refine ⟨?_, ?_, ?_⟩
  · simp [tooFewOf, List.mem_filter, ht]
  · simp [tooManyOf, List.mem_filter, ht]
  · intro hne ev hev heq
    simp only [StopStartTasks, List.mem_append] at hev
    rcases hev with h | h
    · obtain ⟨u, hu, r, rfl⟩ := scaleDown_events_shape _ _ _ ev h
      have hu' := List.mem_filter.mp hu
      have hcond := hu'.2
      simp only [Bool.and_eq_true, decide_eq_true_eq, beq_iff_eq] at hcond
      have : u = t := List.inj_on_of_nodup_map hnd hu'.1 ht heq
      exact hne (this ▸ hcond.2)
    · obtain ⟨u, hu, rfl⟩ := scaleUp_events_shape _ ev h
      have hu' := List.mem_filter.mp hu
      have hcond := hu'.2
      simp only [Bool.and_eq_true, decide_eq_true_eq, beq_iff_eq] at hcond
      have : u = t := List.inj_on_of_nodup_map hnd hu'.1 ht heq
      exact hne (this ▸ hcond.2)

/-- C1 witness: a concrete pass over three tasks, one mid-change
(`requested != running`), one needing scale-up, one needing scale-down. -/
theorem claim1_witness :
    (([⟨"a", "i", 5, 2, 1⟩, ⟨"b", "i", 3, 1, 1⟩, ⟨"c", "i", 0, 2, 2⟩].map
        Task.name).Nodup ∧
      (⟨"a", "i", 5, 2, 1⟩ : Task) ∈
        [⟨"a", "i", 5, 2, 1⟩, ⟨"b", "i", 3, 1, 1⟩, ⟨"c", "i", 0, 2, 2⟩]) ∧
    (((⟨"a", "i", 5, 2, 1⟩ : Task) ∈
        tooFewOf [⟨"a", "i", 5, 2, 1⟩, ⟨"b", "i", 3, 1, 1⟩, ⟨"c", "i", 0, 2, 2⟩] ↔
        (5 : Int) > 2 ∧ (2 : Int) = 1) ∧
      ((⟨"a", "i", 5, 2, 1⟩ : Task) ∈
        tooManyOf [⟨"a", "i", 5, 2, 1⟩, ⟨"b", "i", 3, 1, 1⟩, ⟨"c", "i", 0, 2, 2⟩] ↔
        (5 : Int) < 2 ∧ (2 : Int) = 1) ∧
      ((2 : Int) ≠ 1 →
        ∀ ev ∈ (StopStartTasks [⟨"a", "i", 5, 2, 1⟩, ⟨"b", "i", 3, 1, 1⟩, ⟨"c", "i", 0, 2, 2⟩]
            [("c", [("c1", ⟨"running", false⟩), ("c2", ⟨"running", false⟩)])]).events,
          evName ev ≠ "a")) :=
  ⟨by decide,
    claim1_scale_partition _ _ (by decide) _ (by decide)⟩

/-! ## Claim C4: unit counts and the final `requested` values -/

theorem find?_append_some {α : Type} (l1 l2 : List α) (p : α → Bool) (a : α)
    (h : l1.find? p = some a) : (l1 ++ l2).find? p = some a := by
  induction l1 with
  | nil => simp [List.find?] at h
  | cons b rest ih =>
      by_cases hb : p b
      · rw [List.find?_cons_of_pos _ hb] at h
        simpa [List.find?_cons_of_pos _ hb] using h
      · rw [List.find?_cons_of_neg _ hb] at h
        simpa [List.find?_cons_of_neg _ hb] using ih h

theorem find?_append_none {α : Type} (l1 l2 : List α) (p : α → Bool)
    (h : l1.find? p = none) : (l1 ++ l2).find? p = l2.find? p := by
  induction l1 with
  | nil => simp
  | cons b rest ih =>
      by_cases hb : p b
      · rw [List.find?_cons_of_pos _ hb] at h
        simp at h
      · rw [List.find?_cons_of_neg _ hb] at h
        simpa [List.find?_cons_of_neg _ hb] using ih h

theorem find?_name_map_none (ts : List Task) (f : Task → Task)
    (hf : ∀ u, (f u).name = u.name) (name : String)
    (hno : ∀ u ∈ ts, u.name ≠ name) :
    (ts.map f).find? (fun u => u.name == name) = none := by
  induction ts with
  | nil => rfl
  | cons u rest ih =>
      have h1 : ((f u).name == name) = false := by
        simp [hf u, hno u (List.mem_cons_self u rest)]
      simp only [List.map_cons]
      rw [List.find?_cons_of_neg _ (by simp [h1])]
      exact ih fun w hw => hno w (List.mem_cons_of_mem u hw)

theorem find?_name_map_mem (ts : List Task) (f : Task → Task)
    (hf : ∀ u, (f u).name = u.name) (t : Task)
    (hnd : (ts.map Task.name).Nodup) (ht : t ∈ ts) :
    (ts.map f).find? (fun u => u.name == t.name) = some (f t) := by
  induction ts with
  | nil => simp at ht
  | cons u rest ih =>
      simp only [List.map_cons, List.nodup_cons] at hnd
      rcases List.mem_cons.mp ht with h | h
      · subst h
        simp only [List.map_cons]
        rw [List.find?_cons_of_pos _ (by simp [hf t])]
      · have hne : u.name ≠ t.name := by
          intro hh
          exact hnd.1 (List.mem_map.mpr ⟨t, h, hh.symm⟩)
        simp only [List.map_cons]
        rw [List.find?_cons_of_neg _ (by simp [hf u, hne])]
        exact ih hnd.2 h

/-- The names of `tooFewOf`/`tooManyOf` stay `Nodup`. -/
theorem nodup_names_filter (tasks : List Task) (p : Task → Bool)
    (hnd : (tasks.map Task.name).Nodup) :
    ((tasks.filter p).map Task.name).Nodup :=
  List.Nodup.sublist (List.Sublist.map Task.name (List.filter_sublist tasks)) hnd

/-- C4: for a task selected into `tooMany` (resp. `tooFew`), a Scale
Reconciler pass invokes exactly `requested - demand` Stop units (resp.
`demand - requested` Start units) for it — counted per invocation, i.e.
regardless of each invocation's own success — no unit of the other kind,
and leaves the task's `requested` equal to its `demand`. -/
theorem claim4_unit_counts (tasks : List Task) (store : TaskContainers)
    (hnd : (tasks.map Task.name).Nodup) (t : Task) (ht : t ∈ tasks)
    (hrr : t.requested = t.running) :
    (t.demand < t.requested →
      countStop (StopStartTasks tasks store).events t.name =
        (t.requested - t.demand).toNat ∧
      countStart (StopStartTasks tasks store).events t.name = 0 ∧
      ∀ u ∈ (StopStartTasks tasks store).tasks, u.name = t.name →
        u.requested = t.demand) ∧
    (t.requested < t.demand →
      countStart (StopStartTasks tasks store).events t.name =
        (t.demand - t.requested).toNat ∧
      countStop (StopStartTasks tasks store).events t.name = 0 ∧
      ∀ u ∈ (StopStartTasks tasks store).tasks, u.name = t.name →
        u.requested = t.demand) := by
  have hndMany : ((tooManyOf tasks).map Task.name).Nodup :=
    nodup_names_filter tasks _ hnd
  have hndFew : ((tooFewOf tasks).map Task.name).Nodup :=
    nodup_names_filter tasks _ hnd
  constructor
  · intro hlt
    have htm : t ∈ tooManyOf tasks := by
      simp only [tooManyOf, List.mem_filter, Bool.and_eq_true, decide_eq_true_eq,
        beq_iff_eq]
      exact ⟨ht, hlt, hrr⟩
    have htf_no : ∀ u ∈ tooFewOf tasks, u.name ≠ t.name := by
      intro u hu hh
      have hu' := List.mem_filter.mp hu
      have hut : u = t := List.inj_on_of_nodup_map hnd hu'.1 ht hh
      subst hut
      have hcond := hu'.2
      simp only [Bool.and_eq_true, decide_eq_true_eq, beq_iff_eq] at hcond
      omega
    refine ⟨?_, ?_, ?_⟩
    · simp only [StopStartTasks, countStop_append]
      rw [scaleDown_countStop_mem _ _ _ t hndMany htm, scaleUp_countStop]
      omega
    · simp only [StopStartTasks, countStart_append]
      rw [scaleDown_countStart, scaleUp_countStart _ _ htf_no]
    · intro u hu hname
      simp only [StopStartTasks, List.mem_map] at hu
      obtain ⟨t', ht', hu⟩ := hu
      have hfname : u.name = t'.name := by
        subst hu
        cases hfind : ((scaleDown (tooManyOf tasks) store none).fst ++
            (scaleUp (tooFewOf tasks)).fst).find? (fun w => w.name == t'.name) with
        | none => simp [hfind]
        | some w =>
            have hw := List.find?_some hfind
            simp only [beq_iff_eq] at hw
            simp [hfind, hw]
      have hteq : t' = t := List.inj_on_of_nodup_map hnd ht' ht (hfname ▸ hname)
      subst hteq
      subst hu
      rw [scaleDown_tasks, scaleUp_tasks]
      rw [find?_append_some _ _ _ _
        (find?_name_map_mem (tooManyOf tasks)
          (fun u => { u with
            requested := u.requested - (((u.requested - u.demand).toNat : Nat) : Int) })
          (fun u => rfl) t' hndMany htm)]
      simp only [Option.getD_some]
      omega
  · intro hlt
    have htf : t ∈ tooFewOf tasks := by
      simp only [tooFewOf, List.mem_filter, Bool.and_eq_true, decide_eq_true_eq,
        beq_iff_eq]
      exact ⟨ht, hlt, hrr⟩
    have htm_no : ∀ u ∈ tooManyOf tasks, u.name ≠ t.name := by
      intro u hu hh
      have hu' := List.mem_filter.mp hu
      have hut : u = t := List.inj_on_of_nodup_map hnd hu'.1 ht hh
      subst hut
      have hcond := hu'.2
      simp only [Bool.and_eq_true, decide_eq_true_eq, beq_iff_eq] at hcond
      omega
    refine ⟨?_, ?_, ?_⟩
    · simp only [StopStartTasks, countStart_append]
      rw [scaleDown_countStart, scaleUp_countStart_mem _ t hndFew htf]
      omega
    · simp only [StopStartTasks, countStop_append]
      rw [scaleDown_countStop _ _ _ _ htm_no, scaleUp_countStop]
    · intro u hu hname
      simp only [StopStartTasks, List.mem_map] at hu
      obtain ⟨t', ht', hu⟩ := hu
      have hfname : u.name = t'.name := by
        subst hu
        cases hfind : ((scaleDown (tooManyOf tasks) store none).fst ++
            (scaleUp (tooFewOf tasks)).fst).find? (fun w => w.name == t'.name) with
        | none => simp [hfind]
        | some w =>
            have hw := List.find?_some hfind
            simp only [beq_iff_eq] at hw
            simp [hfind, hw]
      have hteq : t' = t := List.inj_on_of_nodup_map hnd ht' ht (hfname ▸ hname)
      subst hteq
      subst hu
      rw [scaleDown_tasks, scaleUp_tasks]
      rw [find?_append_none _ _ _
        (find?_name_map_none (tooManyOf tasks)
          (fun u => { u with
            requested := u.requested - (((u.requested - u.demand).toNat : Nat) : Int) })
          (fun u => rfl) t'.name htm_no)]
      rw [find?_name_map_mem (tooFewOf tasks)
        (fun u => { u with
          requested := u.requested + (((u.demand - u.requested).toNat : Nat) : Int) })
        (fun u => rfl) t' hndFew htf]
      simp only [Option.getD_some]
      omega


/-- C4 witness: the spec's scenario — `web` with `demand=3, requested=1,
running=1` gets exactly 2 Start units and ends with `requested = 3`;
`db` with `demand=0, requested=2, running=2` gets exactly 2 Stop units. -/
theorem claim4_witness :
    (([(⟨"web", "i", 3, 1, 1⟩ : Task), ⟨"db", "i", 0, 2, 2⟩].map Task.name).Nodup ∧
      (⟨"web", "i", 3, 1, 1⟩ : Task) ∈
        [(⟨"web", "i", 3, 1, 1⟩ : Task), ⟨"db", "i", 0, 2, 2⟩] ∧
      (1 : Int) = 1) ∧
    (((3 : Int) < 1 →
      countStop (StopStartTasks [⟨"web", "i", 3, 1, 1⟩, ⟨"db", "i", 0, 2, 2⟩]
          [("db", [("d1", ⟨"running", false⟩)])]).events "web" = ((1 : Int) - 3).toNat ∧
      countStart (StopStartTasks [⟨"web", "i", 3, 1, 1⟩, ⟨"db", "i", 0, 2, 2⟩]
          [("db", [("d1", ⟨"running", false⟩)])]).events "web" = 0 ∧
      ∀ u ∈ (StopStartTasks [⟨"web", "i", 3, 1, 1⟩, ⟨"db", "i", 0, 2, 2⟩]
          [("db", [("d1", ⟨"running", false⟩)])]).tasks, u.name = "web" →
        u.requested = 3) ∧
    ((1 : Int) < 3 →
      countStart (StopStartTasks [⟨"web", "i", 3, 1, 1⟩, ⟨"db", "i", 0, 2, 2⟩]
          [("db", [("d1", ⟨"running", false⟩)])]).events "web" = ((3 : Int) - 1).toNat ∧
      countStop (StopStartTasks [⟨"web", "i", 3, 1, 1⟩, ⟨"db", "i", 0, 2, 2⟩]
          [("db", [("d1", ⟨"running", false⟩)])]).events "web" = 0 ∧
      ∀ u ∈ (StopStartTasks [⟨"web", "i", 3, 1, 1⟩, ⟨"db", "i", 0, 2, 2⟩]
          [("db", [("d1", ⟨"running", false⟩)])]).tasks, u.name = "web" →
        u.requested = 3)) :=
  ⟨by decide,
    claim4_unit_counts [⟨"web", "i", 3, 1, 1⟩, ⟨"db", "i", 0, 2, 2⟩]
      [("db", [("d1", ⟨"running", false⟩)])] (by decide)
      ⟨"web", "i", 3, 1, 1⟩ (by decide) (by decide)⟩

/-! ## Claim C6: the Stop operation's selection of a container -/

theorem findRunning_eq_none (m : ContainerMap) :
    findRunning m = none ↔ ∀ p ∈ m, p.snd.state ≠ "running" := by
  induction m with
  | nil => simp [findRunning]
  | cons p rest ih =>
      obtain ⟨id, c⟩ := p
      by_cases h : c.state = "running"
      · simp [findRunning, h]
      · simp [findRunning, h, ih]

theorem markStopping_lookup_self (m : ContainerMap) (id : String)
    (hnd : (m.map Prod.fst).Nodup) (h : findRunning m = some id) :
    ∃ c, lookupL m id = some c ∧ c.state = "running" ∧
      lookupL (markStopping m) id = some { c with state := "stopping" } := by
  induction m with
  | nil => simp [findRunning] at h
  | cons p rest ih =>
      obtain ⟨k, c⟩ := p
      simp only [List.map_cons, List.nodup_cons] at hnd
      by_cases hc : c.state = "running"
      · simp only [findRunning, hc] at h
        simp only [beq_self_eq_true, if_pos, Option.some.injEq] at h
        subst h
        refine ⟨c, ?_, hc, ?_⟩
        · simp [lookupL]
        · simp [markStopping, hc, lookupL]
      · simp only [findRunning, hc] at h
        simp only [show (c.state == "running") = false by simp [hc], Bool.false_eq_true,
          if_false] at h
        have hk : k ≠ id := by
          intro hh
          subst hh
          obtain ⟨c', hmem, _, _⟩ := ih hnd.2 h
          exact hnd.1 (List.mem_map.mpr ⟨(k, c'), mem_of_lookupL rest k c' hmem, rfl⟩)
        obtain ⟨c', h1, h2, h3⟩ := ih hnd.2 h
        exact ⟨c', by simp [lookupL, hk, h1], h2, by simp [markStopping, hc, lookupL, hk, h3]⟩

theorem markStopping_lookup_ne (m : ContainerMap) (id id' : String)
    (h : findRunning m = some id) (hne : id' ≠ id) :
    lookupL (markStopping m) id' = lookupL m id' := by
  induction m with
  | nil => rfl
  | cons p rest ih =>
      obtain ⟨k, c⟩ := p
      by_cases hc : c.state = "running"
      · simp only [findRunning, hc] at h
        simp only [beq_self_eq_true, if_pos, Option.some.injEq] at h
        subst h
        simp [markStopping, hc, lookupL, Ne.symm hne]
      · simp only [findRunning, hc] at h
        simp only [show (c.state == "running") = false by simp [hc], Bool.false_eq_true,
          if_false] at h
        by_cases hk : k = id'
        · simp [markStopping, hc, lookupL, hk]
        · simp [markStopping, hc, lookupL, hk, ih h]

theorem findRunning_isSome_iff (m : ContainerMap) :
    (findRunning m).isSome ↔ 0 < countRunningRecs m := by
  induction m with
  | nil => simp [findRunning, countRunningRecs]
  | cons p rest ih =>
      obtain ⟨k, c⟩ := p
      by_cases hc : c.state = "running"
      · simp [findRunning, countRunningRecs, List.filter_cons, hc]
      · simp only [findRunning, countRunningRecs, List.filter_cons] at ih ⊢
        simp [hc, ih]

theorem markStopping_count (m : ContainerMap) (h : (findRunning m).isSome) :
    countRunningRecs (markStopping m) = countRunningRecs m - 1 := by
  induction m with
  | nil => simp [findRunning] at h
  | cons p rest ih =>
      obtain ⟨k, c⟩ := p
      by_cases hc : c.state = "running"
      · simp [markStopping, countRunningRecs, List.filter_cons, hc]
      · have hcb : (c.state == "running") = false := by simp [hc]
        simp only [findRunning, hcb, Bool.false_eq_true, if_false] at h
        have h0 : 0 < countRunningRecs rest := (findRunning_isSome_iff rest).mp h
        have hrec := ih h
        simp only [markStopping, hcb, Bool.false_eq_true, if_false]
        simp only [countRunningRecs, List.filter_cons, hcb, Bool.false_eq_true,
          if_false] at hrec h0 ⊢
        omega

/-- C6: `stopTask` selects a container record of the task whose state is
`"running"` and transitions exactly that record to `"stopping"`, leaving
every other record and every other task untouched; when no record of the
task is `"running"` it fails with the `NoContainerToStop` error and
modifies nothing.  Hence for a task with exactly one running container,
two successive Stop operations make the first succeed and the second
fail. -/
theorem claim6_stop_selection (store : TaskContainers) (name : String)
    (hnd : mapWF ((lookupL store name).getD [])) :
    (∀ id, findRunning ((lookupL store name).getD []) = some id →
      ∃ c, getCont store name id = some c ∧ c.state = "running" ∧
        (stopTask store name).snd = none ∧
        getCont (stopTask store name).fst name id = some { c with state := "stopping" } ∧
        (∀ id', id' ≠ id →
          getCont (stopTask store name).fst name id' = getCont store name id') ∧
        (∀ tn', tn' ≠ name →
          lookupL (stopTask store name).fst tn' = lookupL store tn')) ∧
    ((∀ p ∈ (lookupL store name).getD [], p.snd.state ≠ "running") →
      (stopTask store name).snd =
        some ("[stop] No containers of type " ++ name ++ " to kill") ∧
      (stopTask store name).fst = store) ∧
    (countRunningRecs ((lookupL store name).getD []) = 1 →
      (stopTask store name).snd = none ∧
      (stopTask (stopTask store name).fst name).snd =
        some ("[stop] No containers of type " ++ name ++ " to kill")) := by
  refine ⟨?_, ?_, ?_⟩
  · intro id hfr
    cases hm : lookupL store name with
    | none => rw [hm] at hfr; simp [findRunning] at hfr
    | some m =>
        rw [hm] at hfr hnd
        simp only [Option.getD_some] at hfr hnd
        obtain ⟨c, h1, h2, h3⟩ := markStopping_lookup_self m id hnd hfr
        refine ⟨c, ?_, h2, ?_, ?_, ?_, ?_⟩
        · simp [getCont, hm, h1]
        · simp [stopTask, hm, hfr]
        · simp [stopTask, hm, hfr, getCont, lookupL_setL_self, h3]
        · intro id' hne
          simp [stopTask, hm, hfr, getCont, lookupL_setL_self,
            markStopping_lookup_ne m id id' hfr hne, h1]
        · intro tn' hne
          simp [stopTask, hm, hfr, lookupL_setL_ne _ _ _ _ hne]
  · intro hno
    have hfr : findRunning ((lookupL store name).getD []) = none :=
      (findRunning_eq_none _).mpr hno
    constructor <;> simp [stopTask, hfr]
  · intro hcount
    have hsome : (findRunning ((lookupL store name).getD [])).isSome := by
      rw [findRunning_isSome_iff, hcount]
      omega
    obtain ⟨id, hfr⟩ := Option.isSome_iff_exists.mp hsome
    cases hm : lookupL store name with
    | none => rw [hm] at hfr; simp [findRunning] at hfr
    | some m =>
        rw [hm] at hfr hcount
        simp only [Option.getD_some] at hfr hcount
        have h2 : countRunningRecs (markStopping m) = 0 := by
          rw [markStopping_count m (by rw [hfr]; rfl), hcount]
        have hfr2 : findRunning (markStopping m) = none := by
          cases hopt : findRunning (markStopping m) with
          | none => rfl
          | some x =>
              have hs : (findRunning (markStopping m)).isSome := by rw [hopt]; rfl
              rw [findRunning_isSome_iff, h2] at hs
              omega
        refine ⟨by simp [stopTask, hm, hfr], ?_⟩
        simp [stopTask, hm, hfr, lookupL_setL_self, hfr2]

/-- C6 witness: a task `"web"` with exactly one running container. -/
theorem claim6_witness :
    mapWF ((lookupL fixStoreC6 "web").getD []) ∧
    ((∀ id, findRunning ((lookupL fixStoreC6 "web").getD []) = some id →
      ∃ c, getCont fixStoreC6 "web" id = some c ∧ c.state = "running" ∧
        (stopTask fixStoreC6 "web").snd = none ∧
        getCont (stopTask fixStoreC6 "web").fst "web" id =
          some { c with state := "stopping" } ∧
        (∀ id', id' ≠ id →
          getCont (stopTask fixStoreC6 "web").fst "web" id' =
            getCont fixStoreC6 "web" id') ∧
        (∀ tn', tn' ≠ "web" →
          lookupL (stopTask fixStoreC6 "web").fst tn' = lookupL fixStoreC6 tn')) ∧
    ((∀ p ∈ (lookupL fixStoreC6 "web").getD [], p.snd.state ≠ "running") →
      (stopTask fixStoreC6 "web").snd =
        some ("[stop] No containers of type " ++ "web" ++ " to kill") ∧
      (stopTask fixStoreC6 "web").fst = fixStoreC6) ∧
    (countRunningRecs ((lookupL fixStoreC6 "web").getD []) = 1 →
      (stopTask fixStoreC6 "web").snd = none ∧
      (stopTask (stopTask fixStoreC6 "web").fst "web").snd =
        some ("[stop] No containers of type " ++ "web" ++ " to kill"))) :=
  ⟨by decide, claim6_stop_selection fixStoreC6 "web" (by decide)⟩

/-! ## Claim C2: observing a running container -/

theorem getCont_setCont_self (store : TaskContainers) (tn id : String)
    (c : DockerContainer) :
    getCont (setCont store tn id c) tn id = some c := by
  simp [getCont, setCont, lookupL_setL_self]

theorem getCont_setCont_ne (store : TaskContainers) (tn id tn' id' : String)
    (c : DockerContainer) (h : tn' ≠ tn ∨ id' ≠ id) :
    getCont (setCont store tn id c) tn' id' = getCont store tn' id' := by
  by_cases htn : tn' = tn
  · subst htn
    have hid : id' ≠ id := by
      rcases h with h | h
      · exact absurd rfl h
      · exact h
    simp only [getCont, setCont, lookupL_setL_self, lookupL_setL_ne _ _ _ _ hid]
    cases hm : lookupL store tn' with
    | none => simp [lookupL]
    | some m => simp
  · simp only [getCont, setCont, lookupL_setL_ne _ _ _ _ htn]

theorem GetTask_incRunning (tasks : List Task) (tn : String) (t0 : Task)
    (hg : GetTask tasks tn = some t0) :
    GetTask (incRunning tasks tn) tn = some { t0 with running := t0.running + 1 } := by
  induction tasks with
  | nil => simp [GetTask] at hg
  | cons t rest ih =>
      by_cases h : t.name = tn
      · rw [GetTask, List.find?_cons_of_pos _ (by simp [h])] at hg
        injection hg with hg
        subst hg
        simp only [incRunning, h, beq_self_eq_true, if_pos]
        rw [GetTask, List.find?_cons_of_pos _ (by simp [h])]
      · rw [GetTask, List.find?_cons_of_neg _ (by simp [h])] at hg
        simp only [incRunning, show (t.name == tn) = false by simp [h],
          Bool.false_eq_true, if_false]
        rw [GetTask, List.find?_cons_of_neg _ (by simp [h])]
        exact ih hg

/-- C2: during an Observation Reconciler pass, a reported container whose
status maps to `"running"` and whose ownership label names a managed task
always increments that task's `running` counter, while the record's state
is overwritten to `"running"` only when its prior state was `"starting"`
or unset; any other prior state — in particular `"stopping"` or
`"removing"` — is kept. -/
theorem claim2_observed_running (st : ObsState) (cont : APIContainer)
    (tn : String) (t0 : Task) (c : DockerContainer)
    (hl : labelOf cont = some tn)
    (hg : GetTask st.tasks tn = some t0)
    (hu : statusToState cont.status = "running")
    (hc : getCont st.store tn (trunc cont.id) = some c) :
    GetTask (processContainer st cont).tasks tn =
      some { t0 with running := t0.running + 1 } ∧
    getCont (processContainer st cont).store tn (trunc cont.id) =
      some { state := if c.state = "starting" ∨ c.state = "" then "running" else c.state,
             updated := true } := by
  have hinc : switchInc (statusToState cont.status) = true := by
    simp [switchInc, hu]
  constructor
  · simp only [processContainer, hl, hg, hinc, if_pos]
    exact GetTask_incRunning st.tasks tn t0 hg
  · simp only [processContainer, hl, hg, hc, hinc, if_pos]
    rw [getCont_setCont_self]
    have hsw : switchState (((some c).map DockerContainer.state).getD "")
        (statusToState cont.status) =
        if c.state = "starting" ∨ c.state = "" then "running" else c.state := by
      simp only [Option.map_some, Option.getD_some, switchState, hu]
      by_cases h1 : c.state = "starting"
      · simp [h1]
      · by_cases h2 : c.state = ""
        · simp [h1, h2]
        · simp [h1, h2]
    rw [hsw]

/-- C2 witness: the spec scenario — a record in state `"stopping"`
observed with status `"Up 2 minutes"`: `running` increments, the record
stays `"stopping"`. -/
theorem claim2_witness :
    (labelOf fixContC2 = some "web" ∧
      GetTask fixStC2.tasks "web" = some ⟨"web", "i", 1, 1, 0⟩ ∧
      statusToState fixContC2.status = "running" ∧
      getCont fixStC2.store "web" (trunc fixContC2.id) = some ⟨"stopping", false⟩) ∧
    (GetTask (processContainer fixStC2 fixContC2).tasks "web" =
      some ⟨"web", "i", 1, 1, 1⟩ ∧
    getCont (processContainer fixStC2 fixContC2).store "web" (trunc fixContC2.id) =
      some { state := if ("stopping" : String) = "starting" ∨ ("stopping" : String) = ""
                      then "running" else "stopping",
             updated := true }) :=
  ⟨by decide,
    claim2_observed_running fixStC2 fixContC2 "web" ⟨"web", "i", 1, 1, 0⟩
      ⟨"stopping", false⟩ (by decide) (by decide) (by decide) (by decide)⟩

/-! ## Claim C5: the garbage-collection sweep -/

theorem lookupL_eq_none_of_not_mem {α : Type} (l : List (String × α)) (k : String)
    (h : k ∉ l.map Prod.fst) : lookupL l k = none := by
  induction l with
  | nil => rfl
  | cons p rest ih =>
      obtain ⟨k0, v0⟩ := p
      simp only [List.map_cons, List.mem_cons, not_or] at h
      have hne : k0 ≠ k := fun hh => h.1 hh.symm
      simp [lookupL, hne, ih h.2]

theorem sweepMap_keys_sub (m : ContainerMap) :
    ∀ k ∈ (sweepMap m).fst.map Prod.fst, k ∈ m.map Prod.fst := by
  induction m with
  | nil => simp [sweepMap]
  | cons p rest ih =>
      obtain ⟨id, c⟩ := p
      intro k hk
      simp only [sweepMap] at hk
      by_cases h1 : c.updated
      · simp only [h1, if_pos, List.map_cons, List.mem_cons] at hk
        rcases hk with hk | hk
        · simp [hk]
        · simp [ih k hk]
      · simp only [h1, Bool.false_eq_true, if_false] at hk
        by_cases h2 : c.state = "removing" ∨ c.state = "exited"
        · rw [if_pos (by rcases h2 with h | h <;> simp [h])] at hk
          simp [ih k hk]
        · rw [if_neg (by
            intro hb
            rcases Bool.or_eq_true_iff.mp hb with hb | hb <;>
              exact h2 (by simp_all))] at hk
          by_cases h3 : c.state != "created" && c.state != "starting" &&
              c.state != "stopping"
          · simp only [h3, if_pos, List.map_cons, List.mem_cons] at hk
            rcases hk with hk | hk
            · simp [hk]
            · simp [ih k hk]
          · simp only [eq_false_of_ne_true h3, Bool.false_eq_true, if_false,
              List.map_cons, List.mem_cons] at hk
            rcases hk with hk | hk
            · simp [hk]
            · simp [ih k hk]

theorem sweepMap_anoms_char (m : ContainerMap) :
    ∀ a ∈ (sweepMap m).snd, ∃ p ∈ m, a = Anomaly.badState p.fst p.snd.state ∧
      p.snd.updated = false ∧
      ¬(p.snd.state = "removing" ∨ p.snd.state = "exited") ∧
      ¬(p.snd.state = "created" ∨ p.snd.state = "starting" ∨
        p.snd.state = "stopping") := by
  induction m with
  | nil => simp [sweepMap]
  | cons p rest ih =>
      obtain ⟨id, c⟩ := p
      intro a ha
      simp only [sweepMap] at ha
      by_cases h1 : c.updated
      · simp only [h1, if_pos] at ha
        obtain ⟨q, hq, h⟩ := ih a ha
        exact ⟨q, List.mem_cons_of_mem _ hq, h⟩
      · simp only [h1, Bool.false_eq_true, if_false] at ha
        by_cases h2 : c.state = "removing" ∨ c.state = "exited"
        · rw [if_pos (by rcases h2 with h | h <;> simp [h])] at ha
          obtain ⟨q, hq, h⟩ := ih a ha
          exact ⟨q, List.mem_cons_of_mem _ hq, h⟩
        · rw [if_neg (by
            intro hb
            rcases Bool.or_eq_true_iff.mp hb with hb | hb <;>
              exact h2 (by simp_all))] at ha
          by_cases h3 : c.state != "created" && c.state != "starting" &&
              c.state != "stopping"
          · simp only [h3, if_pos, List.mem_cons] at ha
            rcases ha with ha | ha
            · refine ⟨(id, c), List.mem_cons_self _ _, by simp [ha],
                Bool.not_eq_true _ ▸ h1, h2, ?_⟩
              simp only [bne_iff_ne, Bool.and_eq_true, ne_eq] at h3
              intro hcon
              rcases hcon with h | h | h
              · exact h3.1.1 h
              · exact h3.1.2 h
              · exact h3.2 h
            · obtain ⟨q, hq, h⟩ := ih a ha
              exact ⟨q, List.mem_cons_of_mem _ hq, h⟩
          · simp only [eq_false_of_ne_true h3, Bool.false_eq_true, if_false] at ha
            obtain ⟨q, hq, h⟩ := ih a ha
            exact ⟨q, List.mem_cons_of_mem _ hq, h⟩

theorem sweepMap_record (m : ContainerMap) (id : String) (c : DockerContainer)
    (hnd : (m.map Prod.fst).Nodup) (hmem : (id, c) ∈ m) (hupd : c.updated = false) :
    ((c.state = "removing" ∨ c.state = "exited") →
      lookupL (sweepMap m).fst id = none) ∧
    (¬(c.state = "removing" ∨ c.state = "exited") →
      lookupL (sweepMap m).fst id = some c ∧
      (Anomaly.badState id c.state ∈ (sweepMap m).snd ↔
        ¬(c.state = "created" ∨ c.state = "starting" ∨ c.state = "stopping"))) := by
  induction m with
  | nil => simp at hmem
  | cons p rest ih =>
      obtain ⟨k, d⟩ := p
      simp only [List.map_cons, List.nodup_cons] at hnd
      rcases List.mem_cons.mp hmem with h | h
      · injection h with h1 h2
        subst h1
        subst h2
        constructor
        · intro hstate
          simp only [sweepMap, hupd, Bool.false_eq_true, if_false]
          rw [if_pos (by rcases hstate with h | h <;> simp [h])]
          exact lookupL_eq_none_of_not_mem _ _
            (fun hk => hnd.1 (sweepMap_keys_sub rest id hk))
        · intro hstate
          simp only [sweepMap, hupd, Bool.false_eq_true, if_false]
          rw [if_neg (by
            intro hb
            rcases Bool.or_eq_true_iff.mp hb with hb | hb <;>
              exact hstate (by simp_all))]
          by_cases h3 : c.state != "created" && c.state != "starting" &&
              c.state != "stopping"
          · simp only [h3, if_pos]
            refine ⟨by simp [lookupL], ?_⟩
            simp only [List.mem_cons, true_or, true_iff]
            intro hcon
            simp only [bne_iff_ne, Bool.and_eq_true, ne_eq] at h3
            rcases hcon with h | h | h
            · exact h3.1.1 h
            · exact h3.1.2 h
            · exact h3.2 h
          · simp only [eq_false_of_ne_true h3, Bool.false_eq_true, if_false]
            refine ⟨by simp [lookupL], ?_⟩
            constructor
            · intro hmem2
              obtain ⟨q, hq, heq, _⟩ := sweepMap_anoms_char rest _ hmem2
              injection heq with he1 he2
              exact absurd (List.mem_map.mpr ⟨q, hq, he1.symm⟩) hnd.1
            · intro hcon
              exfalso
              apply hcon
              simp only [bne_iff_ne, Bool.and_eq_true, ne_eq, not_and, not_not] at h3
              by_cases hc1 : c.state = "created"
              · exact Or.inl hc1
              · by_cases hc2 : c.state = "starting"
                · exact Or.inr (Or.inl hc2)
                · exact Or.inr (Or.inr (h3 ⟨hc1, hc2⟩))
      · have hk : k ≠ id := by
          intro hh
          subst hh
          exact hnd.1 (List.mem_map.mpr ⟨(k, c), h, rfl⟩)
        have ihr := ih hnd.2 h
        have hlift : ∀ m' : ContainerMap, ∀ as : List Anomaly,
            lookupL (sweepMap rest).fst id = lookupL ((k, d) :: m') id ∨ True := by
          intro m' as
          exact Or.inr trivial
        constructor
        · intro hstate
          simp only [sweepMap]
          by_cases h1 : d.updated
          · simp only [h1, if_pos]
            simp [lookupL, hk, (ihr.1) hstate]
          · simp only [h1, Bool.false_eq_true, if_false]
            by_cases h2 : d.state = "removing" ∨ d.state = "exited"
            · rw [if_pos (by rcases h2 with hh | hh <;> simp [hh])]
              exact (ihr.1) hstate
            · rw [if_neg (by
                intro hb
                rcases Bool.or_eq_true_iff.mp hb with hb | hb <;>
                  exact h2 (by simp_all))]
              by_cases h3 : d.state != "created" && d.state != "starting" &&
                  d.state != "stopping"
              · simp only [h3, if_pos]
                simp [lookupL, hk, (ihr.1) hstate]
              · simp only [eq_false_of_ne_true h3, Bool.false_eq_true, if_false]
                simp [lookupL, hk, (ihr.1) hstate]
        · intro hstate
          have ihh := (ihr.2) hstate
          simp only [sweepMap]
          by_cases h1 : d.updated
          · simp only [h1, if_pos]
            simp only [lookupL, show (k == id) = false by simp [hk],
              Bool.false_eq_true, if_false]
            exact ihh
          · simp only [h1, Bool.false_eq_true, if_false]
            by_cases h2 : d.state = "removing" ∨ d.state = "exited"
            · rw [if_pos (by rcases h2 with hh | hh <;> simp [hh])]
              exact ihh
            · rw [if_neg (by
                intro hb
                rcases Bool.or_eq_true_iff.mp hb with hb | hb <;>
                  exact h2 (by simp_all))]
              by_cases h3 : d.state != "created" && d.state != "starting" &&
                  d.state != "stopping"
              · simp only [h3, if_pos]
                refine ⟨by simp [lookupL, hk, ihh.1], ?_⟩
                rw [List.mem_cons]
                constructor
                · intro hc
                  rcases hc with hc | hc
                  · injection hc with he1 he2
                    exact absurd he1.symm hk
                  · exact ihh.2.mp hc
                · intro hc
                  exact Or.inr (ihh.2.mpr hc)
              · simp only [eq_false_of_ne_true h3, Bool.false_eq_true, if_false]
                refine ⟨by simp [lookupL, hk, ihh.1], ihh.2⟩

theorem sweepTasks_untouched (ts : List Task) (store : TaskContainers) (tn : String)
    (hno : ∀ t ∈ ts, t.name ≠ tn) :
    lookupL (sweepTasks ts store).fst tn = lookupL store tn := by
  induction ts generalizing store with
  | nil => rfl
  | cons t rest ih =>
      have hhd : t.name ≠ tn := hno t (List.mem_cons_self t rest)
      have htl : ∀ t' ∈ rest, t'.name ≠ tn := fun t' h => hno t' (List.mem_cons_of_mem t h)
      simp only [sweepTasks]
      cases hm : lookupL store t.name with
      | none => exact ih store htl
      | some m =>
          rw [ih _ htl, lookupL_setL_ne _ _ _ _ (Ne.symm hhd)]

theorem sweepTasks_lookup (ts : List Task) (store : TaskContainers) (tn : String)
    (hnd : (ts.map Task.name).Nodup) (htn : ∃ t ∈ ts, t.name = tn)
    (m : ContainerMap) (hm : lookupL store tn = some m) :
    lookupL (sweepTasks ts store).fst tn = some (sweepMap m).fst ∧
    ∀ a ∈ (sweepMap m).snd, a ∈ (sweepTasks ts store).snd := by
  induction ts generalizing store with
  | nil => simp at htn
  | cons t rest ih =>
      simp only [List.map_cons, List.nodup_cons] at hnd
      by_cases hname : t.name = tn
      · have hnorest : ∀ t' ∈ rest, t'.name ≠ tn := by
          intro t' h' hh
          exact hnd.1 (hname ▸ hh ▸ List.mem_map.mpr ⟨t', h', rfl⟩)
        simp only [sweepTasks, hname, hm]
        constructor
        · rw [sweepTasks_untouched rest _ tn hnorest, lookupL_setL_self]
        · intro a ha
          simp [ha]
      · obtain ⟨t', ht', htn'⟩ := htn
        have ht'rest : t' ∈ rest := by
          rcases List.mem_cons.mp ht' with h | h
          · exact absurd (h ▸ htn') hname
          · exact h
        simp only [sweepTasks]
        cases hmt : lookupL store t.name with
        | none =>
            exact ih _ hnd.2 ⟨t', ht'rest, htn'⟩ hm
        | some m' =>
            have hm2 : lookupL (setL store t.name (sweepMap m').fst) tn = some m := by
              rw [lookupL_setL_ne _ _ _ _ (fun hh => hname hh.symm), hm]
            obtain ⟨ih1, ih2⟩ := ih _ hnd.2 ⟨t', ht'rest, htn'⟩ hm2
            refine ⟨ih1, ?_⟩
            intro a ha
            simp [ih2 a ha]

theorem incRunning_names (ts : List Task) (tn : String) :
    (incRunning ts tn).map Task.name = ts.map Task.name := by
  induction ts with
  | nil => rfl
  | cons t rest ih =>
      by_cases h : t.name = tn
      · simp [incRunning, h]
      · simp only [incRunning, show (t.name == tn) = false by simp [h],
          Bool.false_eq_true, if_false, List.map_cons, ih]

theorem processContainer_names (st : ObsState) (cont : APIContainer) :
    (processContainer st cont).tasks.map Task.name = st.tasks.map Task.name := by
  cases hl : labelOf cont with
  | none => simp [processContainer, hl]
  | some tn =>
      cases hg : GetTask st.tasks tn with
      | none => simp [processContainer, hl, hg]
      | some t0 =>
          by_cases hi : switchInc (statusToState cont.status) = true
          · simp [processContainer, hl, hg, hi, incRunning_names]
          · simp [processContainer, hl, hg, hi]

theorem processPhase_tasks_names (tasks : List Task) (store : TaskContainers)
    (cs : List APIContainer) :
    (processPhase tasks store cs).tasks.map Task.name = tasks.map Task.name := by
  have haux : ∀ (l : List APIContainer) (st : ObsState),
      (l.foldl processContainer st).tasks.map Task.name = st.tasks.map Task.name := by
    intro l
    induction l with
    | nil => intro st; rfl
    | cons c rest ih =>
        intro st
        rw [List.foldl_cons, ih, processContainer_names]
  rw [processPhase, haux]
  simp [resetTasks]

/-- C5: at the end of an Observation Reconciler pass, a record of a
managed task that was not observed this pass (`updated = false` after the
per-container loop) is deleted when its state is `"removing"` or
`"exited"`, kept untouched when its state is `"created"`, `"starting"` or
`"stopping"`, and kept with a `badState` anomaly in every other state. -/
theorem claim5_sweep (tasks : List Task) (store : TaskContainers)
    (containers : List APIContainer) (hnd : (tasks.map Task.name).Nodup)
    (tn : String) (htn : ∃ t ∈ tasks, t.name = tn) (m : ContainerMap)
    (hm : lookupL (processPhase tasks store containers).store tn = some m)
    (hmWF : mapWF m) (id : String) (c : DockerContainer)
    (hmem : (id, c) ∈ m) (hupd : c.updated = false) :
    ((c.state = "removing" ∨ c.state = "exited") →
      getCont (CountAllTasks tasks store (Except.ok containers)).store tn id = none) ∧
    ((c.state = "created" ∨ c.state = "starting" ∨ c.state = "stopping") →
      getCont (CountAllTasks tasks store (Except.ok containers)).store tn id = some c) ∧
    (¬(c.state = "removing" ∨ c.state = "exited") →
     ¬(c.state = "created" ∨ c.state = "starting" ∨ c.state = "stopping") →
      getCont (CountAllTasks tasks store (Except.ok containers)).store tn id = some c ∧
      Anomaly.badState id c.state ∈
        (CountAllTasks tasks store (Except.ok containers)).anoms) := by
  have hnd' : ((processPhase tasks store containers).tasks.map Task.name).Nodup := by
    rw [processPhase_tasks_names]
    exact hnd
  have htn' : ∃ t ∈ (processPhase tasks store containers).tasks, t.name = tn := by
    obtain ⟨t, ht, rfl⟩ := htn
    have : t.name ∈ (processPhase tasks store containers).tasks.map Task.name := by
      rw [processPhase_tasks_names]
      exact List.mem_map.mpr ⟨t, ht, rfl⟩
    obtain ⟨t', ht', hname⟩ := List.mem_map.mp this
    exact ⟨t', ht', hname⟩
  obtain ⟨hsw1, hsw2⟩ := sweepTasks_lookup (processPhase tasks store containers).tasks
    (processPhase tasks store containers).store tn hnd' htn' m hm
  have hrec := sweepMap_record m id c hmWF hmem hupd
  refine ⟨?_, ?_, ?_⟩
  · intro hstate
    simp only [CountAllTasks, getCont, hsw1]
    exact hrec.1 hstate
  · intro hstate
    have hnotre : ¬(c.state = "removing" ∨ c.state = "exited") := by
      rcases hstate with h | h | h <;> simp [h]
    simp only [CountAllTasks, getCont, hsw1]
    exact (hrec.2 hnotre).1
  · intro hnotre hnotkeep
    refine ⟨?_, ?_⟩
    · simp only [CountAllTasks, getCont, hsw1]
      exact (hrec.2 hnotre).1
    · simp only [CountAllTasks, List.mem_append]
      exact Or.inr (hsw2 _ (((hrec.2 hnotre).2).mpr hnotkeep))

/-- C5 witness: with an empty report, the unobserved `"removing"` record
of `fixStoreC5` is deleted by the pass. -/
theorem claim5_witness :
    ((fixTasksC5.map Task.name).Nodup ∧
      (∃ t ∈ fixTasksC5, t.name = "web") ∧
      lookupL (processPhase fixTasksC5 fixStoreC5 []).store "web" =
        some [("r1", ⟨"removing", false⟩), ("k1", ⟨"created", false⟩),
              ("b1", ⟨"dead", false⟩)] ∧
      mapWF [("r1", (⟨"removing", false⟩ : DockerContainer)), ("k1", ⟨"created", false⟩),
              ("b1", ⟨"dead", false⟩)] ∧
      ("r1", (⟨"removing", false⟩ : DockerContainer)) ∈
        [("r1", (⟨"removing", false⟩ : DockerContainer)), ("k1", ⟨"created", false⟩),
              ("b1", ⟨"dead", false⟩)]) ∧
    ((("removing" : String) = "removing" ∨ ("removing" : String) = "exited") →
      getCont (CountAllTasks fixTasksC5 fixStoreC5 (Except.ok [])).store "web" "r1" =
        none) :=
  ⟨⟨by decide, ⟨⟨"web", "i", 0, 0, 0⟩, by decide⟩, by decide, by decide, by decide⟩,
    (claim5_sweep fixTasksC5 fixStoreC5 [] (by decide) "web"
      ⟨⟨"web", "i", 0, 0, 0⟩, by decide⟩
      [("r1", ⟨"removing", false⟩), ("k1", ⟨"created", false⟩), ("b1", ⟨"dead", false⟩)]
      (by decide) (by decide) "r1" ⟨"removing", false⟩ (by decide) (by decide)).1⟩

/-! ## Claim C8: towards idempotence of the Observation Reconciler

The `running` counters computed by a pass depend only on the task names
and the reported container list, and the per-record state transitions of
the observation loop are idempotent.  The lemmas below characterize the
pass per record key, assuming the reported truncated container IDs are
pairwise distinct. -/

theorem processContainer_tasks (st : ObsState) (cont : APIContainer) :
    (processContainer st cont).tasks =
      match labelOf cont with
      | none => st.tasks
      | some tn =>
        match GetTask st.tasks tn with
        | none => st.tasks
        | some _ =>
            if switchInc (statusToState cont.status) then incRunning st.tasks tn
            else st.tasks := by
  cases hl : labelOf cont with
  | none => simp [processContainer, hl]
  | some tn =>
      cases hg : GetTask st.tasks tn with
      | none => simp [processContainer, hl, hg]
      | some t0 =>
          by_cases hi : switchInc (statusToState cont.status) = true
          · simp [processContainer, hl, hg, hi]
          · simp [processContainer, hl, hg, hi]

theorem fold_tasks_congr (cs : List APIContainer) (st st' : ObsState)
    (h : st.tasks = st'.tasks) :
    (cs.foldl processContainer st).tasks = (cs.foldl processContainer st').tasks := by
  induction cs generalizing st st' with
  | nil => exact h
  | cons c rest ih =>
      refine ih _ _ ?_
      rw [processContainer_tasks, processContainer_tasks, h]

theorem resetTasks_incRunning (ts : List Task) (tn : String) :
    resetTasks (incRunning ts tn) = resetTasks ts := by
  induction ts with
  | nil => rfl
  | cons t rest ih =>
      by_cases h : t.name = tn
      · simp [incRunning, resetTasks, h]
      · simp only [incRunning, show (t.name == tn) = false by simp [h],
          Bool.false_eq_true, if_false]
        simp only [resetTasks, List.map_cons] at ih ⊢
        rw [ih]

theorem resetTasks_processContainer (st : ObsState) (cont : APIContainer) :
    resetTasks (processContainer st cont).tasks = resetTasks st.tasks := by
  rw [processContainer_tasks]
  cases hl : labelOf cont with
  | none => rfl
  | some tn =>
      cases hg : GetTask st.tasks tn with
      | none => simp [hg]
      | some t0 =>
          by_cases hi : switchInc (statusToState cont.status) = true
          · simp [hg, hi, resetTasks_incRunning]
          · simp [hg, hi]

theorem resetTasks_fold (cs : List APIContainer) (st : ObsState) :
    resetTasks (cs.foldl processContainer st).tasks = resetTasks st.tasks := by
  induction cs generalizing st with
  | nil => rfl
  | cons c rest ih => rw [List.foldl_cons, ih, resetTasks_processContainer]

theorem resetTasks_idem (ts : List Task) :
    resetTasks (resetTasks ts) = resetTasks ts := by
  simp [resetTasks, List.map_map]

theorem resetTasks_names (ts : List Task) :
    (resetTasks ts).map Task.name = ts.map Task.name := by
  simp [resetTasks, List.map_map]

theorem lookupL_resetMap (m : ContainerMap) (id : String) :
    lookupL (resetMap m) id =
      (lookupL m id).map (fun c => { c with updated := false }) := by
  induction m with
  | nil => rfl
  | cons p rest ih =>
      obtain ⟨k, c⟩ := p
      by_cases h : k = id
      · simp [resetMap, lookupL, h]
      · simp only [resetMap] at ih
        simp [resetMap, lookupL, h, ih]

theorem resetStore_lookup_notmem (ts : List Task) (store : TaskContainers)
    (tn : String) (h : tn ∉ ts.map Task.name) :
    lookupL (resetStore ts store) tn = lookupL store tn := by
  induction ts generalizing store with
  | nil => rfl
  | cons t rest ih =>
      simp only [List.map_cons, List.mem_cons, not_or] at h
      simp only [resetStore]
      cases hm : lookupL store t.name with
      | none => exact ih _ h.2
      | some m =>
          rw [ih _ h.2, lookupL_setL_ne _ _ _ _ h.1]

theorem resetStore_lookup_mem (ts : List Task) (store : TaskContainers)
    (tn : String) (hnd : (ts.map Task.name).Nodup) (h : tn ∈ ts.map Task.name) :
    lookupL (resetStore ts store) tn = (lookupL store tn).map resetMap := by
  induction ts generalizing store with
  | nil => simp at h
  | cons t rest ih =>
      simp only [List.map_cons, List.nodup_cons] at hnd
      by_cases hname : t.name = tn
      · subst hname
        simp only [resetStore]
        cases hm : lookupL store t.name with
        | none => rw [resetStore_lookup_notmem _ _ _ hnd.1, hm]; rfl
        | some m =>
            rw [resetStore_lookup_notmem _ _ _ hnd.1, lookupL_setL_self]
            rfl
      · have htl : tn ∈ rest.map Task.name := by
          rcases List.mem_cons.mp h with hh | hh
          · exact absurd hh.symm hname
          · exact hh
        simp only [resetStore]
        cases hm : lookupL store t.name with
        | none => exact ih _ hnd.2 htl
        | some m =>
            rw [ih _ hnd.2 htl, lookupL_setL_ne _ _ _ _ (fun hh => hname hh.symm)]

theorem getCont_resetStore_mem (ts : List Task) (store : TaskContainers)
    (tn id : String) (hnd : (ts.map Task.name).Nodup) (h : tn ∈ ts.map Task.name) :
    getCont (resetStore ts store) tn id =
      (getCont store tn id).map (fun c => { c with updated := false }) := by
  simp only [getCont, resetStore_lookup_mem ts store tn hnd h]
  cases hm : lookupL store tn with
  | none => rfl
  | some m => simp [lookupL_resetMap]

theorem GetTask_isSome_iff (ts : List Task) (tn : String) :
    (GetTask ts tn).isSome ↔ tn ∈ ts.map Task.name := by
  induction ts with
  | nil => simp [GetTask, List.find?]
  | cons t rest ih =>
      by_cases h : t.name = tn
      · rw [GetTask, List.find?_cons_of_pos _ (by simp [h])]
        simp [h]
      · have hskip : GetTask (t :: rest) tn = GetTask rest tn := by
          rw [GetTask, GetTask, List.find?_cons_of_neg _ (by simp [h])]
        rw [hskip, ih]
        simp only [List.map_cons, List.mem_cons]
        constructor
        · intro hh
          exact Or.inr hh
        · intro hh
          rcases hh with hh | hh
          · exact absurd hh.symm h
          · exact hh

theorem GetTask_eq_none_iff (ts : List Task) (tn : String) :
    GetTask ts tn = none ↔ tn ∉ ts.map Task.name := by
  rw [← GetTask_isSome_iff, Option.not_isSome_iff_eq_none]

theorem processContainer_store_ne (st : ObsState) (cont : APIContainer)
    (tn' id' : String)
    (h : ∀ tn, labelOf cont = some tn → (GetTask st.tasks tn).isSome →
      tn ≠ tn' ∨ trunc cont.id ≠ id') :
    getCont (processContainer st cont).store tn' id' = getCont st.store tn' id' := by
  cases hl : labelOf cont with
  | none => simp [processContainer, hl]
  | some tn =>
      cases hg : GetTask st.tasks tn with
      | none => simp [processContainer, hl, hg]
      | some t0 =>
          have hne := h tn hl (by simp [hg])
          simp only [processContainer, hl, hg]
          rw [getCont_setCont_ne]
          rcases hne with hne | hne
          · exact Or.inl (Ne.symm hne)
          · exact Or.inr (Ne.symm hne)

theorem processContainer_store_own (st : ObsState) (cont : APIContainer)
    (tn : String) (hl : labelOf cont = some tn)
    (hg : (GetTask st.tasks tn).isSome) :
    getCont (processContainer st cont).store tn (trunc cont.id) =
      some { state := switchState
              (((getCont st.store tn (trunc cont.id)).map DockerContainer.state).getD "")
              (statusToState cont.status),
             updated := true } := by
  obtain ⟨t0, hg0⟩ := Option.isSome_iff_exists.mp hg
  simp only [processContainer, hl, hg0]
  rw [getCont_setCont_self]

theorem fold_store_untouched (cs : List APIContainer) (st : ObsState)
    (tn id : String)
    (h : ∀ c ∈ cs, ∀ tnc, labelOf c = some tnc → tnc ∈ st.tasks.map Task.name →
      tnc ≠ tn ∨ trunc c.id ≠ id) :
    getCont (cs.foldl processContainer st).store tn id = getCont st.store tn id := by
  induction cs generalizing st with
  | nil => rfl
  | cons c rest ih =>
      rw [List.foldl_cons]
      have hstep : getCont (processContainer st c).store tn id = getCont st.store tn id := by
        apply processContainer_store_ne
        intro tnc hlc hgc
        exact h c (List.mem_cons_self c rest) tnc hlc ((GetTask_isSome_iff _ _).mp hgc)
      have htail : ∀ c' ∈ rest, ∀ tnc, labelOf c' = some tnc →
          tnc ∈ (processContainer st c).tasks.map Task.name →
          tnc ≠ tn ∨ trunc c'.id ≠ id := by
        intro c' hc' tnc hlc htnc
        rw [processContainer_names] at htnc
        exact h c' (List.mem_cons_of_mem c hc') tnc hlc htnc
      rw [ih _ htail, hstep]

theorem fold_store_own (cs : List APIContainer) (st : ObsState) (c : APIContainer)
    (tn : String) (hc : c ∈ cs) (hl : labelOf c = some tn)
    (hm : tn ∈ st.tasks.map Task.name)
    (hids : (cs.map fun x => trunc x.id).Nodup) :
    getCont (cs.foldl processContainer st).store tn (trunc c.id) =
      some { state := switchState
              (((getCont st.store tn (trunc c.id)).map DockerContainer.state).getD "")
              (statusToState c.status),
             updated := true } := by
  induction cs generalizing st with
  | nil => simp at hc
  | cons hd rest ih =>
      simp only [List.map_cons, List.nodup_cons] at hids
      rcases List.mem_cons.mp hc with hhd | hrest
      · subst hhd
        rw [List.foldl_cons]
        have hown := processContainer_store_own st c tn hl
          ((GetTask_isSome_iff _ _).mpr hm)
        have htail : ∀ c' ∈ rest, ∀ tnc, labelOf c' = some tnc →
            tnc ∈ (processContainer st c).tasks.map Task.name →
            tnc ≠ tn ∨ trunc c'.id ≠ trunc c.id := by
          intro c' hc' tnc hlc htnc
          refine Or.inr ?_
          intro hh
          have hmm : trunc c'.id ∈ rest.map fun x => trunc x.id :=
            List.mem_map.mpr ⟨c', hc', rfl⟩
          rw [hh] at hmm
          exact hids.1 hmm
        rw [fold_store_untouched rest _ tn (trunc c.id) htail, hown]
      · have hne : trunc hd.id ≠ trunc c.id := by
          intro hh
          have hmm : trunc c.id ∈ rest.map fun x => trunc x.id :=
            List.mem_map.mpr ⟨c, hrest, rfl⟩
          rw [← hh] at hmm
          exact hids.1 hmm
        rw [List.foldl_cons]
        have hstep : getCont (processContainer st hd).store tn (trunc c.id) =
            getCont st.store tn (trunc c.id) := by
          apply processContainer_store_ne
          intro tnc hlc hgc
          exact Or.inr hne
        have hm' : tn ∈ (processContainer st hd).tasks.map Task.name := by
          rw [processContainer_names]
          exact hm
        rw [ih _ hrest hm' hids.2, hstep]

theorem processContainer_anoms_decomp (st : ObsState) (cont : APIContainer) :
    (processContainer st cont).anoms =
      st.anoms ++ (processContainer { st with anoms := [] } cont).anoms := by
  cases hl : labelOf cont with
  | none => simp [processContainer, hl]
  | some tn =>
      cases hg : GetTask st.tasks tn with
      | none => simp [processContainer, hl, hg]
      | some t0 => simp [processContainer, hl, hg]

theorem switchAnoms_switchState (s u id : String) :
    ∀ a ∈ switchAnoms (switchState s u) u id, a ∈ switchAnoms s u id := by
  intro a ha
  by_cases h1 : u = "removing"
  · subst h1
    simp only [switchState, show ("removing" == "running") = false by decide,
      show ("removing" == "dead") = false by decide, Bool.false_eq_true, if_false] at ha
    exact ha
  · by_cases h2 : u = "exited"
    · subst h2
      simp only [switchState, show ("exited" == "running") = false by decide,
        show ("exited" == "dead") = false by decide, Bool.false_eq_true, if_false] at ha
      exact ha
    · by_cases h3 : u = "dead"
      · subst h3
        simp only [switchState, show ("dead" == "running") = false by decide,
          beq_self_eq_true, if_pos, Bool.false_eq_true, if_false] at ha
        simp only [switchAnoms, show ("dead" == "removing") = false by decide,
          show ("dead" == "exited") = false by decide, beq_self_eq_true,
          Bool.false_eq_true, if_false, if_pos, bne_self_eq_false,
          Bool.false_eq_true] at ha
        simp at ha
      · simp only [switchAnoms, show (u == "removing") = false by simp [h1],
          show (u == "exited") = false by simp [h2],
          show (u == "dead") = false by simp [h3], Bool.false_eq_true, if_false] at ha
        simp at ha

theorem processContainer_anoms_managed (st : ObsState) (cont : APIContainer)
    (tn : String) (t0 : Task) (hl : labelOf cont = some tn)
    (hg : GetTask st.tasks tn = some t0) :
    (processContainer { st with anoms := [] } cont).anoms =
      (if statusToState cont.status == "unknown"
        then [Anomaly.unknownStatus cont.status] else []) ++
      (if (getCont st.store tn (trunc cont.id)).isSome then []
        else [Anomaly.newContainer (trunc cont.id) (statusToState cont.status)]) ++
      switchAnoms
        (((getCont st.store tn (trunc cont.id)).map DockerContainer.state).getD "")
        (statusToState cont.status) (trunc cont.id) := by
  simp [processContainer, hl, hg]

theorem delta_sub (st1 st2 : ObsState) (cont : APIContainer)
    (hnames : st1.tasks.map Task.name = st2.tasks.map Task.name)
    (hrec : ∀ tn, labelOf cont = some tn → tn ∈ st1.tasks.map Task.name →
      getCont st2.store tn (trunc cont.id) =
        some { state := switchState
                (((getCont st1.store tn (trunc cont.id)).map DockerContainer.state).getD "")
                (statusToState cont.status),
               updated := false }) :
    ∀ a ∈ (processContainer { st2 with anoms := [] } cont).anoms,
      a ∈ (processContainer { st1 with anoms := [] } cont).anoms := by
  intro a ha
  cases hl : labelOf cont with
  | none => simp [processContainer, hl] at ha
  | some tn =>
      cases hg1 : GetTask st1.tasks tn with
      | none =>
          have hg2 : GetTask st2.tasks tn = none := by
            rw [GetTask_eq_none_iff] at hg1 ⊢
            rw [← hnames]
            exact hg1
          simp only [processContainer, hl, hg1, hg2] at ha ⊢
          simpa using ha
      | some t1 =>
          have htn : tn ∈ st1.tasks.map Task.name := by
            rw [← GetTask_isSome_iff, hg1]
            rfl
          have hg2s : (GetTask st2.tasks tn).isSome := by
            rw [GetTask_isSome_iff, ← hnames]
            exact htn
          obtain ⟨t2, hg2⟩ := Option.isSome_iff_exists.mp hg2s
          rw [processContainer_anoms_managed st2 cont tn t2 hl hg2] at ha
          rw [processContainer_anoms_managed st1 cont tn t1 hl hg1]
          rw [hrec tn hl htn] at ha
          simp only [Option.isSome_some, if_pos, Option.map_some, Option.getD_some,
            List.append_nil, List.nil_append] at ha
          rcases List.mem_append.mp ha with ha | ha
          · exact List.mem_append.mpr
              (Or.inl (List.mem_append.mpr (Or.inl ha)))
          · exact List.mem_append.mpr
              (Or.inr (switchAnoms_switchState _ _ _ a ha))

theorem fold_anoms_sub (cs : List APIContainer) :
    ∀ (st1 st2 : ObsState),
      st1.tasks.map Task.name = st2.tasks.map Task.name →
      ((cs.map fun c => trunc c.id).Nodup) →
      (∀ c ∈ cs, ∀ tn, labelOf c = some tn → tn ∈ st1.tasks.map Task.name →
        getCont st2.store tn (trunc c.id) =
          some { state := switchState
                  (((getCont st1.store tn (trunc c.id)).map DockerContainer.state).getD "")
                  (statusToState c.status),
                 updated := false }) →
      (∀ a ∈ st2.anoms, a ∈ st1.anoms) →
      ∀ a ∈ (cs.foldl processContainer st2).anoms,
        a ∈ (cs.foldl processContainer st1).anoms := by
  induction cs with
  | nil =>
      intro st1 st2 _ _ _ hanoms
      exact hanoms
  | cons c rest ih =>
      intro st1 st2 hnames hids hrec hanoms
      simp only [List.map_cons, List.nodup_cons] at hids
      rw [List.foldl_cons, List.foldl_cons]
      apply ih (processContainer st1 c) (processContainer st2 c)
      · rw [processContainer_names, processContainer_names, hnames]
      · exact hids.2
      · intro c' hc' tn hlc htn
        rw [processContainer_names] at htn
        have hne : trunc c'.id ≠ trunc c.id := by
          intro hh
          have hmm : trunc c'.id ∈ rest.map fun x => trunc x.id :=
            List.mem_map.mpr ⟨c', hc', rfl⟩
          rw [hh] at hmm
          exact hids.1 hmm
        have h2 : getCont (processContainer st2 c).store tn (trunc c'.id) =
            getCont st2.store tn (trunc c'.id) := by
          apply processContainer_store_ne
          intro tnc hlcc hgc
          exact Or.inr (Ne.symm hne)
        have h1 : getCont (processContainer st1 c).store tn (trunc c'.id) =
            getCont st1.store tn (trunc c'.id) := by
          apply processContainer_store_ne
          intro tnc hlcc hgc
          exact Or.inr (Ne.symm hne)
        rw [h1, h2]
        exact hrec c' (List.mem_cons_of_mem c hc') tn hlc htn
      · intro a ha
        rw [processContainer_anoms_decomp] at ha ⊢
        rcases List.mem_append.mp ha with ha | ha
        · exact List.mem_append.mpr (Or.inl (hanoms a ha))
        · refine List.mem_append.mpr (Or.inr ?_)
          refine delta_sub st1 st2 c hnames ?_ a ha
          intro tn hlc htn
          exact hrec c (List.mem_cons_self c rest) tn hlc htn

theorem sweepMap_lookup_updated (m : ContainerMap) (id : String)
    (c : DockerContainer) (hl : lookupL m id = some c) (hupd : c.updated = true) :
    lookupL (sweepMap m).fst id = some c := by
  induction m with
  | nil => simp [lookupL] at hl
  | cons p rest ih =>
      obtain ⟨k, d⟩ := p
      by_cases hk : k = id
      · subst hk
        simp only [lookupL, beq_self_eq_true, if_pos, Option.some.injEq] at hl
        subst hl
        simp only [sweepMap, hupd, if_pos]
        simp [lookupL]
      · simp only [lookupL, show (k == id) = false by simp [hk], Bool.false_eq_true,
          if_false] at hl
        have hrec := ih hl
        simp only [sweepMap]
        by_cases h1 : d.updated
        · simp only [h1, if_pos]
          simp only [lookupL, show (k == id) = false by simp [hk], Bool.false_eq_true,
            if_false]
          exact hrec
        · simp only [h1, Bool.false_eq_true, if_false]
          by_cases h2 : d.state = "removing" ∨ d.state = "exited"
          · rw [if_pos (by rcases h2 with hh | hh <;> simp [hh])]
            exact hrec
          · rw [if_neg (by
              intro hb
              rcases Bool.or_eq_true_iff.mp hb with hb | hb <;>
                exact h2 (by simp_all))]
            by_cases h3 : d.state != "created" && d.state != "starting" &&
                d.state != "stopping"
            · simp only [h3, if_pos]
              simp only [lookupL, show (k == id) = false by simp [hk],
                Bool.false_eq_true, if_false]
              exact hrec
            · simp only [eq_false_of_ne_true h3, Bool.false_eq_true, if_false]
              simp only [lookupL, show (k == id) = false by simp [hk],
                Bool.false_eq_true, if_false]
              exact hrec

theorem sweepMap_mem_sub (m : ContainerMap) :
    ∀ p ∈ (sweepMap m).fst, p ∈ m := by
  induction m with
  | nil => simp [sweepMap]
  | cons q rest ih =>
      obtain ⟨k, d⟩ := q
      intro p hp
      simp only [sweepMap] at hp
      by_cases h1 : d.updated
      · simp only [h1, if_pos, List.mem_cons] at hp
        rcases hp with hp | hp
        · exact hp ▸ List.mem_cons_self _ _
        · exact List.mem_cons_of_mem _ (ih p hp)
      · simp only [h1, Bool.false_eq_true, if_false] at hp
        by_cases h2 : d.state = "removing" ∨ d.state = "exited"
        · rw [if_pos (by rcases h2 with hh | hh <;> simp [hh])] at hp
          exact List.mem_cons_of_mem _ (ih p hp)
        · rw [if_neg (by
            intro hb
            rcases Bool.or_eq_true_iff.mp hb with hb | hb <;>
              exact h2 (by simp_all))] at hp
          by_cases h3 : d.state != "created" && d.state != "starting" &&
              d.state != "stopping"
          · simp only [h3, if_pos, List.mem_cons] at hp
            rcases hp with hp | hp
            · exact hp ▸ List.mem_cons_self _ _
            · exact List.mem_cons_of_mem _ (ih p hp)
          · simp only [eq_false_of_ne_true h3, Bool.false_eq_true, if_false,
              List.mem_cons] at hp
            rcases hp with hp | hp
            · exact hp ▸ List.mem_cons_self _ _
            · exact List.mem_cons_of_mem _ (ih p hp)

theorem sweepMap_lookup_back (m : ContainerMap) (id : String) (d : DockerContainer)
    (hnd : mapWF m) (h : lookupL (sweepMap m).fst id = some d) :
    lookupL m id = some d :=
  lookupL_of_mem m id d (sweepMap_mem_sub m _ (mem_of_lookupL _ _ _ h)) hnd

theorem sweepTasks_lookup_none (ts : List Task) :
    ∀ (store : TaskContainers), (ts.map Task.name).Nodup →
      ∀ tn, (∃ t ∈ ts, t.name = tn) → lookupL store tn = none →
      lookupL (sweepTasks ts store).fst tn = none := by
  induction ts with
  | nil => intro store _ tn h _; simp at h
  | cons t rest ih =>
      intro store hnd tn htn hnone
      simp only [List.map_cons, List.nodup_cons] at hnd
      by_cases hname : t.name = tn
      · have hnorest : ∀ t' ∈ rest, t'.name ≠ tn := by
          intro t' h' hh
          exact hnd.1 (hname ▸ hh ▸ List.mem_map.mpr ⟨t', h', rfl⟩)
        simp only [sweepTasks, hname, hnone]
        rw [sweepTasks_untouched rest _ tn hnorest]
        exact hnone
      · obtain ⟨t', ht', htn'⟩ := htn
        have ht'rest : t' ∈ rest := by
          rcases List.mem_cons.mp ht' with h | h
          · exact absurd (h ▸ htn') hname
          · exact h
        simp only [sweepTasks]
        cases hmt : lookupL store t.name with
        | none => exact ih _ hnd.2 tn ⟨t', ht'rest, htn'⟩ hnone
        | some m' =>
            refine ih _ hnd.2 tn ⟨t', ht'rest, htn'⟩ ?_
            rw [lookupL_setL_ne _ _ _ _ (fun hh => hname hh.symm)]
            exact hnone

theorem sweepTasks_anoms_char (ts : List Task) :
    ∀ (store : TaskContainers), (ts.map Task.name).Nodup →
      ∀ a ∈ (sweepTasks ts store).snd,
        ∃ t ∈ ts, ∃ m, lookupL store t.name = some m ∧ a ∈ (sweepMap m).snd := by
  induction ts with
  | nil => intro store _ a ha; simp [sweepTasks] at ha
  | cons t rest ih =>
      intro store hnd a ha
      simp only [List.map_cons, List.nodup_cons] at hnd
      cases hm : lookupL store t.name with
      | none =>
          simp only [sweepTasks, hm] at ha
          obtain ⟨t', ht', m', hm', ha'⟩ := ih store hnd.2 a ha
          exact ⟨t', List.mem_cons_of_mem t ht', m', hm', ha'⟩
      | some m =>
          simp only [sweepTasks, hm, List.mem_append] at ha
          rcases ha with ha | ha
          · exact ⟨t, List.mem_cons_self t rest, m, hm, ha⟩
          · obtain ⟨t', ht', m', hm', ha'⟩ := ih _ hnd.2 a ha
            have hne : t'.name ≠ t.name := by
              intro hh
              exact hnd.1 (hh ▸ List.mem_map.mpr ⟨t', ht', rfl⟩)
            rw [lookupL_setL_ne _ _ _ _ hne] at hm'
            exact ⟨t', List.mem_cons_of_mem t ht', m', hm', ha'⟩

theorem keys_setL {α : Type} (l : List (String × α)) (k : String) (v : α) :
    (setL l k v).map Prod.fst =
      if k ∈ l.map Prod.fst then l.map Prod.fst else l.map Prod.fst ++ [k] := by
  induction l with
  | nil => simp [setL]
  | cons p rest ih =>
      obtain ⟨k0, v0⟩ := p
      by_cases h : k0 = k
      · subst h
        simp [setL]
      · simp only [setL, show (k0 == k) = false by simp [h], Bool.false_eq_true,
          if_false, List.map_cons, ih]
        by_cases hm : k ∈ rest.map Prod.fst
        · simp [hm, Ne.symm h]
        · simp [hm, Ne.symm h]

theorem nodup_keys_setL {α : Type} (l : List (String × α)) (k : String) (v : α)
    (h : (l.map Prod.fst).Nodup) : ((setL l k v).map Prod.fst).Nodup := by
  rw [keys_setL]
  by_cases hm : k ∈ l.map Prod.fst
  · simp [hm, h]
  · simp only [hm, if_neg, if_false]
    rw [List.nodup_append]
    refine ⟨h, List.nodup_singleton k, ?_⟩
    intro a hal hak
    rw [List.mem_singleton] at hak
    subst hak
    exact hm hal

theorem mem_setL {α : Type} (l : List (String × α)) (k : String) (v : α)
    (p : String × α) (h : p ∈ setL l k v) : p = (k, v) ∨ p ∈ l := by
  induction l with
  | nil => simp [setL] at h; simp [h]
  | cons q rest ih =>
      obtain ⟨k0, v0⟩ := q
      by_cases h0 : k0 = k
      · subst h0
        simp only [setL, beq_self_eq_true, if_pos, List.mem_cons] at h
        rcases h with h | h
        · exact Or.inl h
        · exact Or.inr (List.mem_cons_of_mem _ h)
      · simp only [setL, show (k0 == k) = false by simp [h0], Bool.false_eq_true,
          if_false, List.mem_cons] at h
        rcases h with h | h
        · exact Or.inr (h ▸ List.mem_cons_self _ _)
        · rcases ih h with hh | hh
          · exact Or.inl hh
          · exact Or.inr (List.mem_cons_of_mem _ hh)

theorem storeWF_setL (store : TaskContainers) (tn : String) (m' : ContainerMap)
    (h : storeWF store) (hm' : mapWF m') : storeWF (setL store tn m') := by
  refine ⟨nodup_keys_setL _ _ _ h.1, ?_⟩
  intro p hp
  rcases mem_setL _ _ _ p hp with hh | hh
  · rw [hh]
    exact hm'
  · exact h.2 p hh

theorem storeWF_setCont (store : TaskContainers) (tn id : String)
    (c : DockerContainer) (h : storeWF store) : storeWF (setCont store tn id c) := by
  refine storeWF_setL _ _ _ h ?_
  cases hm : lookupL store tn with
  | none => simp [setL, mapWF]
  | some m =>
      simp only [Option.getD_some]
      exact nodup_keys_setL _ _ _ (h.2 (tn, m) (mem_of_lookupL _ _ _ hm))

theorem processContainer_storeWF (st : ObsState) (cont : APIContainer)
    (h : storeWF st.store) : storeWF (processContainer st cont).store := by
  cases hl : labelOf cont with
  | none => simpa [processContainer, hl] using h
  | some tn =>
      cases hg : GetTask st.tasks tn with
      | none => simpa [processContainer, hl, hg] using h
      | some t0 =>
          simp only [processContainer, hl, hg]
          exact storeWF_setCont _ _ _ _ h

theorem fold_storeWF (cs : List APIContainer) :
    ∀ st : ObsState, storeWF st.store →
      storeWF ((cs.foldl processContainer st).store) := by
  induction cs with
  | nil => intro st h; exact h
  | cons c rest ih =>
      intro st h
      rw [List.foldl_cons]
      exact ih _ (processContainer_storeWF st c h)

theorem resetMap_keys (m : ContainerMap) :
    (resetMap m).map Prod.fst = m.map Prod.fst := by
  simp [resetMap]

theorem resetStore_storeWF (ts : List Task) :
    ∀ store : TaskContainers, storeWF store → storeWF (resetStore ts store) := by
  induction ts with
  | nil => intro store h; exact h
  | cons t rest ih =>
      intro store h
      simp only [resetStore]
      cases hm : lookupL store t.name with
      | none => exact ih _ h
      | some m =>
          refine ih _ (storeWF_setL _ _ _ h ?_)
          rw [mapWF, resetMap_keys]
          exact h.2 (t.name, m) (mem_of_lookupL _ _ _ hm)

theorem sweepMap_keys_sublist (m : ContainerMap) :
    ((sweepMap m).fst.map Prod.fst).Sublist (m.map Prod.fst) := by
  induction m with
  | nil => simp [sweepMap]
  | cons p rest ih =>
      obtain ⟨k, d⟩ := p
      simp only [sweepMap]
      by_cases h1 : d.updated
      · simp only [h1, if_pos, List.map_cons]
        exact ih.cons₂ k
      · simp only [h1, Bool.false_eq_true, if_false]
        by_cases h2 : d.state = "removing" ∨ d.state = "exited"
        · rw [if_pos (by rcases h2 with hh | hh <;> simp [hh])]
          exact ih.cons k
        · rw [if_neg (by
            intro hb
            rcases Bool.or_eq_true_iff.mp hb with hb | hb <;>
              exact h2 (by simp_all))]
          by_cases h3 : d.state != "created" && d.state != "starting" &&
              d.state != "stopping"
          · simp only [h3, if_pos, List.map_cons]
            exact ih.cons₂ k
          · simp only [eq_false_of_ne_true h3, Bool.false_eq_true, if_false,
              List.map_cons]
            exact ih.cons₂ k

theorem sweepMap_mapWF (m : ContainerMap) (h : mapWF m) : mapWF (sweepMap m).fst :=
  List.Nodup.sublist (sweepMap_keys_sublist m) h

theorem sweepTasks_storeWF (ts : List Task) :
    ∀ store : TaskContainers, storeWF store → storeWF (sweepTasks ts store).fst := by
  induction ts with
  | nil => intro store h; exact h
  | cons t rest ih =>
      intro store h
      simp only [sweepTasks]
      cases hm : lookupL store t.name with
      | none => exact ih _ h
      | some m =>
          refine ih _ (storeWF_setL _ _ _ h ?_)
          exact sweepMap_mapWF m (h.2 (t.name, m) (mem_of_lookupL _ _ _ hm))

theorem obs_pass2_tasks_eq (tasks : List Task) (store : TaskContainers)
    (cs : List APIContainer) :
    (CountAllTasks (CountAllTasks tasks store (Except.ok cs)).tasks
        (CountAllTasks tasks store (Except.ok cs)).store (Except.ok cs)).tasks =
      (CountAllTasks tasks store (Except.ok cs)).tasks := by
  simp only [CountAllTasks, processPhase]
  apply fold_tasks_congr
  show resetTasks (cs.foldl processContainer
      { tasks := resetTasks tasks, store := resetStore tasks store,
        anoms := [] }).tasks = resetTasks tasks
  rw [resetTasks_fold]
  exact resetTasks_idem tasks

theorem fold_tasks_names (cs : List APIContainer) :
    ∀ st : ObsState,
      (cs.foldl processContainer st).tasks.map Task.name = st.tasks.map Task.name := by
  induction cs with
  | nil => intro st; rfl
  | cons c rest ih =>
      intro st
      rw [List.foldl_cons, ih, processContainer_names]

set_option maxHeartbeats 2000000 in
theorem obs_anoms_core (tasks : List Task) (store : TaskContainers)
    (cs : List APIContainer) (init1 mid1 : ObsState) (store1 : TaskContainers)
    (s1anoms : List Anomaly) (init2 mid2 : ObsState)
    (hnd : (tasks.map Task.name).Nodup) (hwf : storeWF store)
    (hids : (cs.map fun c => trunc c.id).Nodup)
    (h1 : init1 = { tasks := resetTasks tasks
                    store := resetStore tasks store
                    anoms := [] })
    (h2 : mid1 = cs.foldl processContainer init1)
    (h3 : store1 = (sweepTasks mid1.tasks mid1.store).fst)
    (h4 : s1anoms = (sweepTasks mid1.tasks mid1.store).snd)
    (h5 : init2 = { tasks := resetTasks mid1.tasks
                    store := resetStore mid1.tasks store1
                    anoms := [] })
    (h6 : mid2 = cs.foldl processContainer init2) :
    ∀ a ∈ mid2.anoms ++ (sweepTasks mid2.tasks mid2.store).snd,
      a ∈ mid1.anoms ++ s1anoms := by
  have hts1names : mid1.tasks.map Task.name = tasks.map Task.name := by
    rw [h2, h1, fold_tasks_names]
    exact resetTasks_names tasks
  have hndts1 : (mid1.tasks.map Task.name).Nodup := by
    rw [hts1names]
    exact hnd
  have hnames12 : init1.tasks.map Task.name = init2.tasks.map Task.name := by
    rw [h1, h5]
    simp only [resetTasks_names]
    rw [hts1names]
  have hwf_init1 : storeWF init1.store := by
    rw [h1]
    exact resetStore_storeWF tasks store hwf
  have hwf_mid1 : storeWF mid1.store := by
    rw [h2]
    exact fold_storeWF cs init1 hwf_init1
  have hwf_store1 : storeWF store1 := by
    rw [h3]
    exact sweepTasks_storeWF _ _ hwf_mid1
  have hwf_init2 : storeWF init2.store := by
    rw [h5]
    exact resetStore_storeWF _ _ hwf_store1
  have hwf_mid2 : storeWF mid2.store := by
    rw [h6]
    exact fold_storeWF cs init2 hwf_init2
  have hrec : ∀ c ∈ cs, ∀ tn, labelOf c = some tn →
      tn ∈ init1.tasks.map Task.name →
      getCont init2.store tn (trunc c.id) =
        some { state := switchState
                (((getCont init1.store tn (trunc c.id)).map DockerContainer.state).getD "")
                (statusToState c.status),
               updated := false } := by
    intro c hc tn hl htn
    have htn0 : tn ∈ tasks.map Task.name := by
      rw [h1, resetTasks_names] at htn
      exact htn
    have hown := fold_store_own cs init1 c tn hc hl htn hids
    rw [← h2] at hown
    cases hm1 : lookupL mid1.store tn with
    | none => simp [getCont, hm1] at hown
    | some m1 =>
        have hl1 : lookupL m1 (trunc c.id) =
            some { state := switchState
                    (((getCont init1.store tn (trunc c.id)).map
                      DockerContainer.state).getD "")
                    (statusToState c.status),
                   updated := true } := by
          simpa [getCont, hm1] using hown
        have hex : ∃ t ∈ mid1.tasks, t.name = tn := by
          have hmm : tn ∈ mid1.tasks.map Task.name := by
            rw [hts1names]
            exact htn0
          obtain ⟨t, ht, hname⟩ := List.mem_map.mp hmm
          exact ⟨t, ht, hname⟩
        have hsw := sweepTasks_lookup mid1.tasks mid1.store tn hndts1 hex m1 hm1
        have hkeep := sweepMap_lookup_updated m1 (trunc c.id) _ hl1 rfl
        have hg_store1 : getCont store1 tn (trunc c.id) =
            some { state := switchState
                    (((getCont init1.store tn (trunc c.id)).map
                      DockerContainer.state).getD "")
                    (statusToState c.status),
                   updated := true } := by
          rw [h3]
          simp [getCont, hsw.1, hkeep]
        rw [h5]
        rw [getCont_resetStore_mem mid1.tasks store1 tn (trunc c.id) hndts1
          (by rw [hts1names]; exact htn0)]
        rw [hg_store1]
        rfl
  intro a ha
  rcases List.mem_append.mp ha with ha | ha
  · have hanom0 : ∀ x ∈ init2.anoms, x ∈ init1.anoms := by
      intro x hx
      rw [h5] at hx
      simp at hx
    have hsub := fold_anoms_sub cs init1 init2 hnames12 hids hrec hanom0
    rw [h6] at ha
    refine List.mem_append.mpr (Or.inl ?_)
    rw [h2]
    exact hsub a ha
  · have hnames2 : mid2.tasks.map Task.name = tasks.map Task.name := by
      rw [h6, fold_tasks_names, h5]
      simp only [resetTasks_names]
      rw [hts1names]
    have hnd2 : (mid2.tasks.map Task.name).Nodup := by
      rw [hnames2]
      exact hnd
    obtain ⟨t, ht, m2, hm2, ha2⟩ :=
      sweepTasks_anoms_char mid2.tasks mid2.store hnd2 a ha
    obtain ⟨p, hpmem, hpa, hpupd, hpnotre, hpnotcre⟩ := sweepMap_anoms_char m2 a ha2
    obtain ⟨id, c⟩ := p
    dsimp only at hpa hpupd hpnotre hpnotcre
    have hmWF2 : mapWF m2 := hwf_mid2.2 (t.name, m2) (mem_of_lookupL _ _ _ hm2)
    have hlook2 : lookupL m2 id = some c := lookupL_of_mem _ _ _ hpmem hmWF2
    have hgc2 : getCont mid2.store t.name id = some c := by
      simp [getCont, hm2, hlook2]
    have htname : t.name ∈ tasks.map Task.name := by
      rw [← hnames2]
      exact List.mem_map.mpr ⟨t, ht, rfl⟩
    by_cases hobs : ∃ c' ∈ cs, labelOf c' = some t.name ∧ trunc c'.id = id
    · obtain ⟨c', hc', hl', hid'⟩ := hobs
      have htn2 : t.name ∈ init2.tasks.map Task.name := by
        rw [h5]
        simp only [resetTasks_names]
        rw [hts1names]
        exact htname
      have hown2 := fold_store_own cs init2 c' t.name hc' hl' htn2 hids
      rw [← h6, hid', hgc2] at hown2
      have hcu : c.updated = true := by
        rw [Option.some_inj.mp hown2]
      rw [hpupd] at hcu
      exact absurd hcu (by decide)
    · push_neg at hobs
      have huntH : ∀ c' ∈ cs, ∀ tnc, labelOf c' = some tnc →
          tnc ≠ t.name ∨ trunc c'.id ≠ id := by
        intro c' hc' tnc hlc
        by_cases htc : tnc = t.name
        · subst htc
          exact Or.inr (hobs c' hc' hlc)
        · exact Or.inl htc
      have hunt2 : getCont mid2.store t.name id = getCont init2.store t.name id := by
        rw [h6]
        exact fold_store_untouched cs init2 t.name id
          (fun c' hc' tnc hlc _ => huntH c' hc' tnc hlc)
      have hreset2 : getCont init2.store t.name id =
          (getCont store1 t.name id).map (fun x => { x with updated := false }) := by
        rw [h5]
        exact getCont_resetStore_mem mid1.tasks store1 t.name id hndts1
          (by rw [hts1names]; exact htname)
      rw [hunt2, hreset2] at hgc2
      cases hg1 : getCont store1 t.name id with
      | none =>
          rw [hg1] at hgc2
          exact Option.noConfusion hgc2
      | some d =>
          rw [hg1] at hgc2
          have hgc2' : { state := d.state, updated := false } = c :=
            Option.some_inj.mp hgc2
          have hexists1 : ∃ t' ∈ mid1.tasks, t'.name = t.name := by
            have hmm : t.name ∈ mid1.tasks.map Task.name := by
              rw [hts1names]
              exact htname
            obtain ⟨t', ht', hneq⟩ := List.mem_map.mp hmm
            exact ⟨t', ht', hneq⟩
          cases hm1 : lookupL mid1.store t.name with
          | none =>
              have hnone1 : lookupL store1 t.name = none := by
                rw [h3]
                exact sweepTasks_lookup_none mid1.tasks mid1.store hndts1 t.name
                  hexists1 hm1
              rw [getCont, hnone1] at hg1
              simp at hg1
          | some m1 =>
              have hsw1 := sweepTasks_lookup mid1.tasks mid1.store t.name hndts1
                hexists1 m1 hm1
              have hswl : lookupL (sweepMap m1).fst id = some d := by
                have hg1' := hg1
                rw [h3] at hg1'
                simpa [getCont, hsw1.1] using hg1'
              have hmWF1 : mapWF m1 :=
                hwf_mid1.2 (t.name, m1) (mem_of_lookupL _ _ _ hm1)
              have hl_m1 : lookupL m1 id = some d :=
                sweepMap_lookup_back m1 id d hmWF1 hswl
              have hmem_m1 : (id, d) ∈ m1 := mem_of_lookupL _ _ _ hl_m1
              have hunt1 : getCont mid1.store t.name id =
                  getCont init1.store t.name id := by
                rw [h2]
                exact fold_store_untouched cs init1 t.name id
                  (fun c' hc' tnc hlc _ => huntH c' hc' tnc hlc)
              have hreset1 : getCont init1.store t.name id =
                  (getCont store t.name id).map
                    (fun x => { x with updated := false }) := by
                rw [h1]
                exact getCont_resetStore_mem tasks store t.name id hnd htname
              have hgd : getCont mid1.store t.name id = some d := by
                simp [getCont, hm1, hl_m1]
              rw [hunt1, hreset1] at hgd
              have hdupd : d.updated = false := by
                cases hg0 : getCont store t.name id with
                | none =>
                    rw [hg0] at hgd
                    exact Option.noConfusion hgd
                | some e =>
                    rw [hg0] at hgd
                    have hgd' : some { state := e.state, updated := false } =
                        some d := hgd
                    rw [← Option.some_inj.mp hgd']
              have hstate : d.state = c.state := by
                rw [← hgc2']
              have hrec1 := sweepMap_record m1 id d hmWF1 hmem_m1 hdupd
              have hnotre_d : ¬(d.state = "removing" ∨ d.state = "exited") := by
                rw [hstate]
                exact hpnotre
              have hnotcre_d : ¬(d.state = "created" ∨ d.state = "starting" ∨
                  d.state = "stopping") := by
                rw [hstate]
                exact hpnotcre
              have hbad : Anomaly.badState id d.state ∈ (sweepMap m1).snd :=
                ((hrec1.2 hnotre_d).2).mpr hnotcre_d
              have hin1 : Anomaly.badState id d.state ∈
                  (sweepTasks mid1.tasks mid1.store).snd := hsw1.2 _ hbad
              rw [← h4] at hin1
              refine List.mem_append.mpr (Or.inr ?_)
              rw [hpa, ← hstate]
              exact hin1

theorem obs_pass2_anoms_sub (tasks : List Task) (store : TaskContainers)
    (cs : List APIContainer) (hnd : (tasks.map Task.name).Nodup)
    (hwf : storeWF store) (hids : (cs.map fun c => trunc c.id).Nodup) :
    ∀ a ∈ (CountAllTasks (CountAllTasks tasks store (Except.ok cs)).tasks
        (CountAllTasks tasks store (Except.ok cs)).store (Except.ok cs)).anoms,
      a ∈ (CountAllTasks tasks store (Except.ok cs)).anoms := by
  simp only [CountAllTasks, processPhase]
  exact obs_anoms_core tasks store cs _ _ _ _ _ _ hnd hwf hids rfl rfl rfl rfl rfl rfl

/-- C8 counterexample: over an unchanged report that lists the same
truncated container ID twice (first with a removal status, then dead)
for a record in state `"removing"`, the second Observation Reconciler
pass logs an `unexpectedRemoval` anomaly that the first pass did not
log — so the claim fails for reports with duplicated IDs. -/
theorem claim8_counterexample :
    Anomaly.unexpectedRemoval "c1c1c1c1c1c1" ∈
      (CountAllTasks (CountAllTasks fixTasksC8 fixStoreC8 (Except.ok fixContsC8)).tasks
        (CountAllTasks fixTasksC8 fixStoreC8 (Except.ok fixContsC8)).store
        (Except.ok fixContsC8)).anoms ∧
    Anomaly.unexpectedRemoval "c1c1c1c1c1c1" ∉
      (CountAllTasks fixTasksC8 fixStoreC8 (Except.ok fixContsC8)).anoms := by
  constructor <;> decide

/-- C8 amended: running the Observation Reconciler twice against the same
runtime-reported container list — provided the reported truncated
container IDs are pairwise distinct, as a Docker listing guarantees
absent 12-character-prefix collisions — leaves the task list (hence every
task's `running` count) of the second pass identical to the first's, and
the second pass logs no anomaly the first pass did not log.  (With a
duplicated reported ID the anomaly half fails; see the counterexample.) -/
theorem claim8_idempotent (tasks : List Task) (store : TaskContainers)
    (cs : List APIContainer) (hnd : (tasks.map Task.name).Nodup)
    (hwf : storeWF store) (hids : (cs.map fun c => trunc c.id).Nodup) :
    (CountAllTasks (CountAllTasks tasks store (Except.ok cs)).tasks
        (CountAllTasks tasks store (Except.ok cs)).store (Except.ok cs)).tasks =
      (CountAllTasks tasks store (Except.ok cs)).tasks ∧
    ∀ a ∈ (CountAllTasks (CountAllTasks tasks store (Except.ok cs)).tasks
        (CountAllTasks tasks store (Except.ok cs)).store (Except.ok cs)).anoms,
      a ∈ (CountAllTasks tasks store (Except.ok cs)).anoms :=
  ⟨obs_pass2_tasks_eq tasks store cs, obs_pass2_anoms_sub tasks store cs hnd hwf hids⟩

/-- C8 witness: a report with distinct IDs over a store with records in
states `"stopping"`, `"dead"` and `"removing"`, plus a previously
unrecorded exited container. -/
theorem claim8_witness :
    ((fixTasksW8.map Task.name).Nodup ∧ storeWF fixStoreW8 ∧
      (fixContsW8.map fun c => trunc c.id).Nodup) ∧
    ((CountAllTasks (CountAllTasks fixTasksW8 fixStoreW8 (Except.ok fixContsW8)).tasks
        (CountAllTasks fixTasksW8 fixStoreW8 (Except.ok fixContsW8)).store
        (Except.ok fixContsW8)).tasks =
      (CountAllTasks fixTasksW8 fixStoreW8 (Except.ok fixContsW8)).tasks ∧
    ∀ a ∈ (CountAllTasks (CountAllTasks fixTasksW8 fixStoreW8 (Except.ok fixContsW8)).tasks
        (CountAllTasks fixTasksW8 fixStoreW8 (Except.ok fixContsW8)).store
        (Except.ok fixContsW8)).anoms,
      a ∈ (CountAllTasks fixTasksW8 fixStoreW8 (Except.ok fixContsW8)).anoms) :=
  ⟨by refine ⟨by decide, ⟨by decide, by decide⟩, by decide⟩,
    claim8_idempotent fixTasksW8 fixStoreW8 fixContsW8 (by decide)
      ⟨by decide, by decide⟩ (by decide)⟩

end Microscaling
